import Mathlib

/-!
Shallow embedding of `src/lib/ipsoObject.ts` (the IPSO object mapping layer:
per-class field metadata, differential serialization, recursive parsing,
merge, clone, and the proxy wrapper), together with theorems settling the
frozen claims about it.

Modelling conventions:
* JavaScript runtime values are modelled by the inductive `Value`:
  `null` and `undefined` are distinct constructors (both are "nullish" for
  the loose `!= null` checks); numbers are modelled as integers (every
  numeric value the code manipulates in the claims is an integer);
  plain objects (wire records) are association lists `List (String × Value)`
  in property-insertion order, which is exactly how a JS object behaves for
  `Object.keys` iteration and bracket assignment (`jsSet` below);
  class instances are the `vobj` constructor.
* The per-class reflection metadata written by the decorators
  (`@ipsoKey`, `@required`, `@serializeWith`, `@deserializeWith`,
  `@doNotSerialize`, and the `design:type` information) is collected in a
  `ClassDesc` record; the decorator bodies are pure metadata-table inserts,
  modelled by the table contents plus the lookup functions below, which
  follow the source lookups line by line.
* Property-transform kernels are user-supplied functions in the source.
  They are deeply embedded here as `TKernel`, a small language containing
  the two default boolean kernels from the source plus representative
  custom kernels, so that theorems can quantify over transforms.
* `===` on primitives is value equality; on two distinct objects/arrays it
  is reference equality, which is `false` for the independently constructed
  values compared by `serialize` (`jsStrictEq` below).
* The single `throw` in `serialize` is modelled by `Except String`; the
  source message contains an apostrophe which is reproduced here in an
  apostrophe-free paraphrase.
-/

set_option autoImplicit false

namespace IPSO

/-- Deep embedding of property-transform kernels. `boolSer` and `boolDeser`
are the two default kernels from `defaultSerializers`/`defaultDeserializers`
in the source; `ident`, `constNum` and `addNum` are representative
user-supplied kernels (the source allows arbitrary functions). -/
inductive TKernel where
  | boolSer
  | boolDeser
  | ident
  | constNum (n : Int)
  | addNum (n : Int)
deriving DecidableEq

/-- `PropertyTransform`: a kernel plus the `neverSkip` / `splitArrays`
flags, as in the source interface. -/
structure PropertyTransform where
  kernel : TKernel
  neverSkip : Bool
  splitArrays : Bool
deriving DecidableEq

/-- Options argument of `buildPropertyTransform`; absent entries mean the
source received `undefined` for that option. -/
structure TransformOptions where
  splitArrays : Option Bool := none
  neverSkip : Option Bool := none

/-- `buildPropertyTransform`: fills in the defaults
(`splitArrays = true`, `neverSkip = false`) exactly as the source does. -/
def buildPropertyTransform (kernel : TKernel) (options : TransformOptions) :
    PropertyTransform :=
  { kernel := kernel
    splitArrays := options.splitArrays.getD true
    neverSkip := options.neverSkip.getD false }

/-- Deep embedding of `RequiredPredicate` functions `(me, reference) => bool`.
`refNotNull` is the representative data-dependent predicate. -/
inductive RPred where
  | ptrue
  | pfalse
  | refNotNull
deriving DecidableEq

/-- A `@required` metadata entry: either a boolean or a predicate, matching
`boolean | RequiredPredicate` in the source. -/
inductive RequiredRule where
  | rbool (b : Bool)
  | rfun (p : RPred)
deriving DecidableEq

/-- The per-class reflection metadata tables written by the decorators. -/
structure ClassDesc where
  /-- `(property, ipso key)` pairs passed to the `@ipsoKey` decorator. -/
  ipsoKeyDecls : List (String × String)
  /-- `@required` metadata, keyed by property name. -/
  requiredMeta : List (String × RequiredRule)
  /-- `@serializeWith` metadata, keyed by property name. -/
  serializeMeta : List (String × PropertyTransform)
  /-- `@deserializeWith` metadata, keyed by property name. -/
  deserializeMeta : List (String × PropertyTransform)
  /-- Properties marked `@doNotSerialize`. -/
  doNotSerializeMeta : List String
  /-- `design:type` metadata: constructor name of the declared type. -/
  designTypes : List (String × String)
deriving DecidableEq

/-- `IPSOOptions`; a missing `skipBasicSerializers` is falsy, hence
defaulted to `false`. -/
structure IPSOOptions where
  skipBasicSerializers : Bool := false
deriving DecidableEq

/-- JS object bracket assignment `m[k] = v`: overwrites in place if the key
exists (keeping its position), else appends, which is JS property order. -/
def jsSet {α : Type} (m : List (String × α)) (k : String) (v : α) :
    List (String × α) :=
  if m.any (fun p => p.1 == k) then
    m.map (fun p => if p.1 == k then (k, v) else p)
  else
    m ++ [(k, v)]

/-- JS metadata-object lookup guarded by `hasOwnProperty`: `some` iff the
key is present. -/
def metaLookup {α : Type} (m : List (String × α)) (k : String) : Option α :=
  (m.find? (fun p => p.1 == k)).map (fun p => p.2)

/-- The bidirectional map built by the `@ipsoKey` decorator: for each
declaration it stores `metadata[property] = key` and `metadata[key] =
property` into one shared object. -/
def ipsoKeyMap (decls : List (String × String)) : List (String × String) :=
  decls.foldl (fun m pk => jsSet (jsSet m pk.1 pk.2) pk.2 pk.1) []

/-- `lookupKeyOrProperty`: a property name maps to its ipso key and an ipso
key maps back to its property name; `none` models the `null` returned when
the metadata object does not have the token. -/
def lookupKeyOrProperty (cls : ClassDesc) (keyOrProperty : String) :
    Option String :=
  metaLookup (ipsoKeyMap cls.ipsoKeyDecls) keyOrProperty

mutual
/-- A JavaScript value as manipulated by the mapping layer. -/
inductive Value where
  | vnull
  | vundefined
  | vbool (b : Bool)
  | vnum (n : Int)
  | vstr (s : String)
  | varr (elems : List Value)
  | vrec (entries : List (String × Value))
  | vobj (inst : IPSOObject)

/-- An `IPSOObject` instance: its class metadata, its `options` record and
its own enumerable fields in insertion order. The base-class properties
`options`, `isProxy` and `client` carry `@doNotSerialize` and are never
emitted, so they are held outside `fields`; `isProxy` is the initializer
value `false` on every real instance (only the proxy get-trap reports
`true`, see `IPSOProxy` below). -/
inductive IPSOObject where
  | mk (cls : ClassDesc) (options : IPSOOptions)
      (fields : List (String × Value))
end

def IPSOObject.cls : IPSOObject → ClassDesc
  | .mk c _ _ => c

def IPSOObject.options : IPSOObject → IPSOOptions
  | .mk _ o _ => o

def IPSOObject.fields : IPSOObject → List (String × Value)
  | .mk _ _ f => f

/-- JS truthiness. -/
def truthy : Value → Bool
  | .vnull => false
  | .vundefined => false
  | .vbool b => b
  | .vnum n => !(n == 0)
  | .vstr s => !(s == "")
  | .varr _ => true
  | .vrec _ => true
  | .vobj _ => true

/-- The loose `value != null` check: `false` exactly for `null` and
`undefined`. -/
def isNullish : Value → Bool
  | .vnull => true
  | .vundefined => true
  | _ => false

/-- `typeof value === "object"`: true for `null`, arrays, plain objects and
class instances. -/
def typeofIsObject : Value → Bool
  | .vnull => true
  | .varr _ => true
  | .vrec _ => true
  | .vobj _ => true
  | _ => false

/-- Strict equality `===`: value equality on primitives; two separately
constructed objects/arrays are distinct references, hence `false`. -/
def jsStrictEq : Value → Value → Bool
  | .vnull, .vnull => true
  | .vundefined, .vundefined => true
  | .vbool a, .vbool b => a == b
  | .vnum a, .vnum b => a == b
  | .vstr a, .vstr b => a == b
  | _, _ => false

/-- Interpretation of transform kernels. The source also passes the owning
instance as a second argument; none of the embedded kernels consult it. -/
def applyKernel : TKernel → Value → Value
  | .boolSer, v => .vnum (if truthy v then 1 else 0)
  | .boolDeser, v =>
      .vbool (jsStrictEq v (.vnum 1) || jsStrictEq v (.vstr "true") ||
        jsStrictEq v (.vstr "on") || jsStrictEq v (.vbool true))
  | .ident, v => v
  | .constNum n, _ => .vnum n
  | .addNum n, v =>
      match v with
      | .vnum m => .vnum (m + n)
      | w => w

/-- The default `Boolean` serializer `bool => bool ? 1 : 0`, `neverSkip`. -/
def boolSerTransform : PropertyTransform :=
  buildPropertyTransform .boolSer { neverSkip := some true }

/-- The default `Boolean` deserializer
`raw => raw === 1 || raw === "true" || raw === "on" || raw === true`,
`neverSkip`. -/
def boolDeserTransform : PropertyTransform :=
  buildPropertyTransform .boolDeser { neverSkip := some true }

/-- `defaultSerializers`, keyed by type-constructor name. -/
def defaultSerializers : List (String × PropertyTransform) :=
  [("Boolean", boolSerTransform)]

/-- `defaultDeserializers`, keyed by type-constructor name. -/
def defaultDeserializers : List (String × PropertyTransform) :=
  [("Boolean", boolDeserTransform)]

/-- `getPropertyType`: the `design:type` constructor name. -/
def getPropertyType (cls : ClassDesc) (property : String) : Option String :=
  metaLookup cls.designTypes property

/-- `getSerializer`: declared `@serializeWith` transform, else the default
transform for the declared type, else none. -/
def getSerializer (cls : ClassDesc) (property : String) :
    Option PropertyTransform :=
  match metaLookup cls.serializeMeta property with
  | some t => some t
  | none =>
    match getPropertyType cls property with
    | some tyName => metaLookup defaultSerializers tyName
    | none => none

/-- `getDeserializer`: declared `@deserializeWith` transform, else the
default transform for the declared type, else none. -/
def getDeserializer (cls : ClassDesc) (property : String) :
    Option PropertyTransform :=
  match metaLookup cls.deserializeMeta property with
  | some t => some t
  | none =>
    match getPropertyType cls property with
    | some tyName => metaLookup defaultDeserializers tyName
    | none => none

/-- `isSerializable`: true unless the property carries `@doNotSerialize`. -/
def isSerializable (cls : ClassDesc) (property : String) : Bool :=
  !(cls.doNotSerializeMeta.contains property)

/-- Interpretation of required-predicates `(me, reference) => bool`. -/
def evalRPred : RPred → IPSOObject → Value → Bool
  | .ptrue, _, _ => true
  | .pfalse, _, _ => false
  | .refNotNull, _, ref => !(isNullish ref)

/-- `isRequired`: boolean metadata is returned directly, a function
predicate is invoked with `(target, reference)`, absent metadata means not
required. -/
def isRequired (target : IPSOObject) (reference : Value) (property : String) :
    Bool :=
  match metaLookup target.cls.requiredMeta property with
  | some (.rbool b) => b
  | some (.rfun p) => evalRPred p target reference
  | none => false

/-- `hasOwnProperty` on an instance. -/
def IPSOObject.hasOwn (i : IPSOObject) (p : String) : Bool :=
  i.fields.any (fun kv => kv.1 == p)

/-- Own-property read. -/
def IPSOObject.getField (i : IPSOObject) (p : String) : Option Value :=
  metaLookup i.fields p

/-- Property assignment `this[p] = v`. -/
def setField (i : IPSOObject) (p : String) (v : Value) : IPSOObject :=
  .mk i.cls i.options (jsSet i.fields p v)

/-- `merge`: for every entry of the partial object whose key is an existing
own property, overwrite it; other entries are ignored; shallow, no
transforms; the source returns the mutated `this`. -/
def merge (i : IPSOObject) (obj : List (String × Value)) : IPSOObject :=
  obj.foldl
    (fun cur kv => if cur.hasOwn kv.1 then setField cur kv.1 kv.2 else cur) i

mutual
/-- `parseValue`: split arrays element-wise when requested; otherwise an
object-typed value (`typeof value === "object"`, which includes `null` and
non-split arrays) is passed to the transform, or — with no transform — a
diagnostic is logged and the implicit `return` yields `undefined`;
otherwise a transform is applied unless basic-serializer skipping applies;
otherwise the raw value is returned. The source also hands the owning
instance to the kernel; only its constant `options` record is consulted
here. -/
def parseValue (options : IPSOOptions) (propKey : String) (value : Value)
    (transform : Option PropertyTransform)
    (requiresArraySplitting : Bool) : Value :=
  match value, requiresArraySplitting with
  | .varr elems, true =>
      .varr (parseValueList options propKey elems transform true)
  | v, _ =>
      if typeofIsObject v then
        match transform with
        | some t => applyKernel t.kernel v
        | none => .vundefined
      else
        match transform with
        | some t =>
            if t.neverSkip || !options.skipBasicSerializers then
              applyKernel t.kernel v
            else v
        | none => v
termination_by (sizeOf value, 1)

/-- Element-wise `value.map(v => this.parseValue(propKey, v, transform,
requiresArraySplitting))`. -/
def parseValueList (options : IPSOOptions) (propKey : String)
    (elems : List Value) (transform : Option PropertyTransform)
    (requiresArraySplitting : Bool) : List Value :=
  match elems with
  | [] => []
  | v :: rest =>
      parseValue options propKey v transform requiresArraySplitting ::
        parseValueList options propKey rest transform requiresArraySplitting
termination_by (sizeOf elems, 0)
end

/-- One iteration of the `parse` loop for the entry `(key, value)`:
resolve the deserializer (the key may be a property name carrying a
declared transform, else it is an ipso key resolved through the registry —
unknown keys are logged and skipped), then parse and assign. -/
def parseEntry (self : IPSOObject) (key : String) (value : Value) :
    IPSOObject :=
  match getDeserializer self.cls key with
  | some deserializer =>
      setField self key
        (parseValue self.options key value (some deserializer)
          deserializer.splitArrays)
  | none =>
      match lookupKeyOrProperty self.cls key with
      | none => self
      | some propName =>
          let deserializer := getDeserializer self.cls propName
          let requiresArraySplitting :=
            match deserializer with
            | some d => d.splitArrays
            | none => true
          setField self propName
            (parseValue self.options key value deserializer
              requiresArraySplitting)

/-- `parse`: fold `parseEntry` over the wire object and return the mutated
instance. -/
def parse (self : IPSOObject) (obj : List (String × Value)) : IPSOObject :=
  obj.foldl (fun cur kv => parseEntry cur kv.1 kv.2) self

/-- The private-by-convention check `propName.startsWith("_")`, written on
the character list so that it evaluates inside the kernel. -/
def startsWithUnderscore (s : String) : Bool :=
  s.data.head? == some '_'

/-- The message of the only `throw` in `serialize` (the source literal
contains an apostrophe, paraphrased away here). -/
def mismatchError : String :=
  "cannot serialize arrays when the reference values do not match"

/-- `reference.hasOwnProperty(propName)` for the loosely typed reference
value: meaningful on instances and plain records, `false` elsewhere. -/
def refHasOwn : Value → String → Bool
  | .vobj i, p => i.hasOwn p
  | .vrec es, p => es.any (fun kv => kv.1 == p)
  | _, _ => false

/-- `reference[propName]` (only ever read under a `refHasOwn` guard). -/
def refGet : Value → String → Value
  | .vobj i, p => (i.getField p).getD .vundefined
  | .vrec es, p => ((es.find? (fun kv => kv.1 == p)).map (fun kv => kv.2)).getD .vundefined
  | _, _ => .vundefined

/-- The reference (default) value for a property:
`reference != null && reference.hasOwnProperty(propName)` guards the read,
else it stays `null`. -/
def refValueOf (reference : Value) (propName : String) : Value :=
  if !(isNullish reference) && refHasOwn reference propName then
    refGet reference propName
  else .vnull

/-- The transform step shared by the tail of `serializeValue`:
`if (transform && (transform.neverSkip || !this.options.skipBasicSerializers))
 _ret = transform(_ret, this)`. -/
def maybeTransform (options : IPSOOptions) (t : Option PropertyTransform)
    (v : Value) : Value :=
  match t with
  | some tr =>
      if tr.neverSkip || !options.skipBasicSerializers then
        applyKernel tr.kernel v
      else v
  | none => v

/-- `requiresArraySplitting` for a resolved serializer. -/
def splitOf (t : Option PropertyTransform) : Bool :=
  match t with
  | some tr => tr.splitArrays
  | none => true

/-- `isSerializedObjectEmpty`, invoked on the nested instance: scanning the
keys of the serialized form, any key whose property is not required makes
the object non-empty; if every present key is required (or there are no
keys) the object counts as empty. An unmapped key makes
`lookupKeyOrProperty` return `null`, which the `hasOwnProperty` check
inside `isRequired` coerces to the string key `"null"`. -/
def isSerializedObjectEmpty (self : IPSOObject)
    (obj : List (String × Value)) (refObj : Value) : Bool :=
  obj.all (fun kv =>
    isRequired self refObj ((lookupKeyOrProperty self.cls kv.1).getD "null"))

mutual
/-- `serialize`: walk the own enumerable fields (`Object.keys(this)` with
`this[propName]` reads is exactly the `fields` association list, whose keys
are unique in a JS object). The two proxy-unwrapping steps at the top of
the source are identity here because `Value` contains no proxy wrappers
(proxies are modelled separately by `IPSOProxy`). -/
def serialize (self : IPSOObject) (reference : Value) :
    Except String (List (String × Value)) :=
  match self with
  | .mk c o fields => serializeFields (.mk c o fields) reference [] fields
termination_by (sizeOf self, 0)

/-- The `for (const propName of Object.keys(this))` loop, threading the
output record `ret`. A field is processed unless its name starts with an
underscore or it carries `@doNotSerialize` (the `hasOwnProperty` conjunct
of the source condition is a tautology for enumerated own keys). The wire
key is `lookupKeyOrProperty`; when that is `null`, the bracket assignment
`ret[key] = value` coerces it to the string key `"null"`. -/
def serializeFields (self : IPSOObject) (reference : Value)
    (ret : List (String × Value)) (fields : List (String × Value)) :
    Except String (List (String × Value)) :=
  match fields with
  | [] => .ok ret
  | (propName, value) :: rest =>
      if !startsWithUnderscore propName && isSerializable self.cls propName then
        match serializeFieldValue self reference propName value with
        | .error e => .error e
        | .ok v =>
            let key := (lookupKeyOrProperty self.cls propName).getD "null"
            serializeFields self reference
              (if !(isNullish v) then jsSet ret key v else ret) rest
      else
        serializeFields self reference ret rest
termination_by (sizeOf fields, 3)

/-- The array branch of the field loop (source lines 381-396): with a
non-null reference value that is not an array of the same length this is
the fatal contract violation; otherwise every element is serialized
against its reference element (`[]` stands for the no-reference case),
null results are filtered out and an empty result array becomes `null`. -/
def serializeArray (self : IPSOObject) (reference : Value)
    (propName : String) (elems : List Value) (refValue : Value)
    (serializer : Option PropertyTransform) : Except String Value :=
  if !(isNullish refValue) then
    match refValue with
    | .varr refElems =>
        if refElems.length == elems.length then
          match serializeValueList self reference propName elems refElems
              serializer with
          | .error e => .error e
          | .ok vs =>
              let filtered := vs.filter (fun v => !(isNullish v))
              .ok (if filtered.length == 0 then .vnull else .varr filtered)
        else .error mismatchError
    | _ => .error mismatchError
  else
    match serializeValueList self reference propName elems [] serializer with
    | .error e => .error e
    | .ok vs =>
        let filtered := vs.filter (fun v => !(isNullish v))
        .ok (if filtered.length == 0 then .vnull else .varr filtered)
termination_by (sizeOf elems, 2)

/-- Per-field dispatch (`value instanceof Array && requiresArraySplitting`):
an array value with array-splitting in effect goes through the array
branch; any other value goes through `serializeValue` directly. -/
def serializeFieldValue (self : IPSOObject) (reference : Value)
    (propName : String) (value : Value) : Except String Value :=
  let refValue := refValueOf reference propName
  let serializer := getSerializer self.cls propName
  match value with
  | .varr elems =>
      if splitOf serializer then
        serializeArray self reference propName elems refValue serializer
      else
        serializeValue self reference propName (.varr elems) refValue
          serializer
  | v => serializeValue self reference propName v refValue serializer
termination_by (sizeOf value, 3)

/-- The `serializeValue` closure: a nested `IPSOObject` is serialized
recursively against the reference value and dropped (null) when its
serialized form `isSerializedObjectEmpty` relative to the parent reference;
a non-instance value is dropped when a non-null reference value exists, the
property is not required and the raw values are strictly equal; the
transform — when present and not skipped — is applied last, to the
surviving raw value. -/
def serializeValue (self : IPSOObject) (reference : Value)
    (propName : String) (value : Value) (refValue : Value)
    (transform : Option PropertyTransform) : Except String Value :=
  let _required := isRequired self reference propName
  match value with
  | .vobj nested =>
      match serialize nested refValue with
      | .error e => .error e
      | .ok s =>
          if isSerializedObjectEmpty nested s reference then .ok .vnull
          else .ok (maybeTransform self.options transform (.vrec s))
  | v =>
      if !(isNullish refValue) && !_required && jsStrictEq refValue v then
        .ok .vnull
      else
        .ok (maybeTransform self.options transform v)
termination_by (sizeOf value, 1)

/-- Element-wise serialization of a split array against the matching
reference elements (an empty `refs` list stands for the no-reference case:
every element is serialized against `null`). -/
def serializeValueList (self : IPSOObject) (reference : Value)
    (propName : String) (elems : List Value) (refs : List Value)
    (serializer : Option PropertyTransform) : Except String (List Value) :=
  match elems with
  | [] => .ok []
  | v :: vs =>
      match serializeValue self reference propName v (refs.headD .vnull)
          serializer with
      | .error e => .error e
      | .ok sv =>
          match serializeValueList self reference propName vs refs.tail
              serializer with
          | .error e => .error e
          | .ok rest => .ok (sv :: rest)
termination_by (sizeOf elems, 1)
end

/-- `clone`: construct a fresh instance of the same class with the same
options (modelling a class whose field declarations create no own
properties before assignment), serialize with no reference, parse back. -/
def clone (self : IPSOObject) : Except String IPSOObject :=
  match serialize self .vnull with
  | .error e => .error e
  | .ok s => .ok (parse (IPSOObject.mk self.cls self.options []) s)

/-- `unproxy` invoked on a plain (non-proxied) instance: the readonly field
`isProxy` holds its initializer `false`, so the proxy branch is dead and
`this` is returned. -/
def IPSOObject.unproxy (self : IPSOObject) : IPSOObject := self

/-- The wrapper produced by `createProxy`: the get trap reports
`isProxy = true` and exposes the wrapped instance as `underlyingObject`. -/
structure IPSOProxy where
  underlyingObject : IPSOObject

/-- `createProxy` (with the default traps, no custom get/set). -/
def createProxy (self : IPSOObject) : IPSOProxy := ⟨self⟩

/-- Calling `w.unproxy()` on a proxy: the get trap returns the raw
`unproxy` method, which runs with `this` bound to the proxy, so its
`this.isProxy` read traps to `true` and its `this.underlyingObject` read
traps to the wrapped instance, which is returned. -/
def IPSOProxy.unproxyCall (w : IPSOProxy) : IPSOObject :=
  w.underlyingObject

/-- `value instanceof IPSOObject`. -/
def Value.isInstanceVal : Value → Bool
  | .vobj _ => true
  | _ => false

/-- A primitive (non-object) value. -/
def primValue : Value → Bool
  | .vnull => true
  | .vundefined => true
  | .vbool _ => true
  | .vnum _ => true
  | .vstr _ => true
  | _ => false

/-- A primitive value or an array of primitive values. -/
def flatValue : Value → Bool
  | .varr elems => elems.all primValue
  | v => primValue v

/-- Conditions under which one serialized field survives the round trip of
claim C4: the field has a wire key whose registry lookup inverts exactly,
the wire key resolves no deserializer of its own, and the transforms are
either absent in both directions or the paired default boolean
serializer/deserializer. -/
def fieldRoundTripOK (cls : ClassDesc) (f : String) : Bool :=
  match lookupKeyOrProperty cls f with
  | none => false
  | some k =>
      decide (lookupKeyOrProperty cls k = some f) &&
      decide (getDeserializer cls k = none) &&
      (decide (getSerializer cls f = none ∧ getDeserializer cls f = none) ||
       decide (getSerializer cls f = some boolSerTransform ∧
         getDeserializer cls f = some boolDeserTransform))

/-- The amended hypothesis of claim C4: basic serializers not skipped,
distinct field names, and every serialized (non-private, serializable)
field holds a primitive value or an array of primitives and satisfies
`fieldRoundTripOK`. -/
def roundTripOK (self : IPSOObject) : Bool :=
  !self.options.skipBasicSerializers &&
  decide ((self.fields.map Prod.fst).Nodup) &&
  self.fields.all (fun fv =>
    if !startsWithUnderscore fv.1 && isSerializable self.cls fv.1 then
      flatValue fv.2 && fieldRoundTripOK self.cls fv.1
    else true)

/-! Concrete classes and instances used by the counterexamples and
witnesses. -/

/-- A class with one field `a`, wire key `"1"`, marked required. -/
def exClsReq : ClassDesc :=
  { ipsoKeyDecls := [("a", "1")]
    requiredMeta := [("a", .rbool true)]
    serializeMeta := []
    deserializeMeta := []
    doNotSerializeMeta := []
    designTypes := [] }

/-- An instance of `exClsReq` with `a = 5`. -/
def exChildReq : IPSOObject := .mk exClsReq {} [("a", .vnum 5)]

/-- A class with one field `a`, wire key `"1"`, not required. -/
def exClsOpt : ClassDesc :=
  { ipsoKeyDecls := [("a", "1")]
    requiredMeta := []
    serializeMeta := []
    deserializeMeta := []
    doNotSerializeMeta := []
    designTypes := [] }

/-- An instance of `exClsOpt` with `a = 5`. -/
def exChildOpt : IPSOObject := .mk exClsOpt {} [("a", .vnum 5)]

/-- A parent class with one nested-object field `child`, wire key `"c"`,
and no declared deserializer for it. -/
def exClsParent : ClassDesc :=
  { ipsoKeyDecls := [("child", "c")]
    requiredMeta := []
    serializeMeta := []
    deserializeMeta := []
    doNotSerializeMeta := []
    designTypes := [] }

/-- Parent instance whose `child` field is the all-required child. -/
def exParentReq : IPSOObject := .mk exClsParent {} [("child", .vobj exChildReq)]

/-- Parent instance whose `child` field is the non-required child. -/
def exParentOpt : IPSOObject := .mk exClsParent {} [("child", .vobj exChildOpt)]

/-- A class with a boolean-typed field `b` (wire key `"5850"`) and no
declared transforms. -/
def exClsBool : ClassDesc :=
  { ipsoKeyDecls := [("b", "5850")]
    requiredMeta := []
    serializeMeta := []
    deserializeMeta := []
    doNotSerializeMeta := []
    designTypes := [("b", "Boolean")] }

/-- A class with no metadata at all. -/
def exClsEmpty : ClassDesc :=
  { ipsoKeyDecls := []
    requiredMeta := []
    serializeMeta := []
    deserializeMeta := []
    doNotSerializeMeta := []
    designTypes := [] }

/-- An instance of the metadata-free class with one field `f = 5`. -/
def exNoKey : IPSOObject := .mk exClsEmpty {} [("f", .vnum 5)]

/-- A class with field `f`, wire key `"9001"`, no transforms. -/
def exClsF : ClassDesc :=
  { ipsoKeyDecls := [("f", "9001")]
    requiredMeta := []
    serializeMeta := []
    deserializeMeta := []
    doNotSerializeMeta := []
    designTypes := [] }

/-- An instance of `exClsF` with `f = 5`. -/
def exInstF : IPSOObject := .mk exClsF {} [("f", .vnum 5)]

/-- Instance of `exClsF` whose `f` holds a three-element array. -/
def exInstArr : IPSOObject :=
  .mk exClsF {} [("f", .varr [.vnum 1, .vnum 2, .vnum 3])]

/-- A reference record giving `f` a two-element array. -/
def exRefArr : Value := .vrec [("f", .varr [.vnum 1, .vnum 2])]

/-- A flat instance exercising the amended round-trip claim: a plain
number, a boolean-typed field and an array of numbers. -/
def exClsFlat : ClassDesc :=
  { ipsoKeyDecls := [("a", "1"), ("b", "5850"), ("c", "3311")]
    requiredMeta := []
    serializeMeta := []
    deserializeMeta := []
    doNotSerializeMeta := []
    designTypes := [("b", "Boolean")] }

/-- Instance of `exClsFlat` with all three fields populated. -/
def exInstFlat : IPSOObject :=
  .mk exClsFlat {}
    [("a", .vnum 5), ("b", .vbool true), ("c", .varr [.vnum 1, .vnum 2])]

/-- The wire value a flat (primitive or array-of-primitives) field value
serializes to with no reference: the transform result for a single value;
for a split array, the element-wise transform results with null results
filtered out and an empty result array collapsed to `null`. -/
def flatWire (options : IPSOOptions) (s : Option PropertyTransform) :
    Value → Value
  | .varr xs =>
      let filtered :=
        (xs.map (fun x => maybeTransform options s x)).filter
          (fun x => !(isNullish x))
      if filtered.length == 0 then .vnull else .varr filtered
  | v => maybeTransform options s v

/-- The wire record produced by serializing a flat field list with no
reference: each field that passes the serialization filter and produces a
non-null wire value is emitted under its wire key (`"null"` when none). -/
def flatEmit (cls : ClassDesc) (options : IPSOOptions)
    (fl : List (String × Value)) : List (String × Value) :=
  fl.filterMap (fun fv =>
    if (!startsWithUnderscore fv.1 && isSerializable cls fv.1) &&
        !(isNullish (flatWire options (getSerializer cls fv.1) fv.2)) then
      some ((lookupKeyOrProperty cls fv.1).getD "null",
        flatWire options (getSerializer cls fv.1) fv.2)
    else none)

/-- The fields of a fresh instance after parsing `flatEmit` back: each
emitted field reappears under its property name with the deserialized wire
value. -/
def flatParsed (cls : ClassDesc) (options : IPSOOptions)
    (fl : List (String × Value)) : List (String × Value) :=
  fl.filterMap (fun fv =>
    if (!startsWithUnderscore fv.1 && isSerializable cls fv.1) &&
        !(isNullish (flatWire options (getSerializer cls fv.1) fv.2)) then
      some (fv.1,
        parseValue options ((lookupKeyOrProperty cls fv.1).getD "null")
          (flatWire options (getSerializer cls fv.1) fv.2)
          (getDeserializer cls fv.1) (splitOf (getDeserializer cls fv.1)))
    else none)

/-! Helper lemmas about the JS object primitives. -/

theorem metaLookup_nil {α : Type} (f : String) :
    metaLookup ([] : List (String × α)) f = none := rfl

theorem metaLookup_cons {α : Type} (p : String × α) (m : List (String × α))
    (f : String) :
    metaLookup (p :: m) f = if p.1 = f then some p.2 else metaLookup m f := by
  simp only [metaLookup, List.find?]
  by_cases h : p.1 = f
  · simp [h]
  · simp [h, beq_eq_false_iff_ne.mpr h]

theorem metaLookup_isSome_any {α : Type} (m : List (String × α)) (f : String) :
    m.any (fun p => p.1 == f) = (metaLookup m f).isSome := by
  induction m with
  | nil => rfl
  | cons p m ih =>
      rw [List.any_cons, metaLookup_cons]
      by_cases h : p.1 = f
      · simp [h]
      · simp [h, ih, beq_eq_false_iff_ne.mpr h]

theorem metaLookup_map_ne {α : Type} (m : List (String × α)) (k : String)
    (v : α) (f : String) (h : f ≠ k) :
    metaLookup (m.map (fun p => if p.1 == k then (k, v) else p)) f =
      metaLookup m f := by
  induction m with
  | nil => rfl
  | cons p m ih =>
      rw [List.map_cons, metaLookup_cons]
      by_cases hpk : p.1 = k
      · have hkf : ¬k = f := fun hh => h hh.symm
        have hpf : ¬p.1 = f := fun hh => h (hh.symm.trans hpk)
        simp only [hpk, beq_self_eq_true, if_true, hkf, if_false, ih,
          metaLookup_cons, hpf]
      · simp only [beq_eq_false_iff_ne.mpr hpk, Bool.false_eq_true, if_false,
          metaLookup_cons, ih]

theorem metaLookup_map_self {α : Type} (m : List (String × α)) (k : String)
    (v : α) (h : m.any (fun p => p.1 == k) = true) :
    metaLookup (m.map (fun p => if p.1 == k then (k, v) else p)) k =
      some v := by
  induction m with
  | nil => simp at h
  | cons p m ih =>
      rw [List.map_cons]
      by_cases hpk : p.1 = k
      · simp [hpk, metaLookup_cons]
      · rw [List.any_cons] at h
        simp only [beq_eq_false_iff_ne.mpr hpk, Bool.false_or] at h
        simp only [beq_eq_false_iff_ne.mpr hpk, Bool.false_eq_true, if_false,
          metaLookup_cons, hpk, ih h]

theorem metaLookup_append_single_ne {α : Type} (m : List (String × α))
    (k : String) (v : α) (f : String) (h : f ≠ k) :
    metaLookup (m ++ [(k, v)]) f = metaLookup m f := by
  induction m with
  | nil =>
      have hkf : ¬k = f := fun hh => h hh.symm
      simp [metaLookup_cons, metaLookup_nil, hkf]
  | cons p m ih =>
      rw [List.cons_append, metaLookup_cons, metaLookup_cons, ih]

theorem metaLookup_append_single_self {α : Type} (m : List (String × α))
    (k : String) (v : α) (h : m.any (fun p => p.1 == k) = false) :
    metaLookup (m ++ [(k, v)]) k = some v := by
  induction m with
  | nil => simp [metaLookup_cons]
  | cons p m ih =>
      rw [List.any_cons] at h
      have hpk : ¬p.1 = k := by
        intro hh
        simp [hh] at h
      have hm : m.any (fun p => p.1 == k) = false := by
        rcases Bool.or_eq_false_iff.mp h with ⟨_, hh⟩
        exact hh
      rw [List.cons_append, metaLookup_cons, ih hm, if_neg hpk]

/-- Bracket assignment followed by lookup: the assigned key reads back the
assigned value, other keys are unaffected. -/
theorem metaLookup_jsSet {α : Type} (m : List (String × α)) (k : String)
    (v : α) (f : String) :
    metaLookup (jsSet m k v) f = if f = k then some v else metaLookup m f := by
  unfold jsSet
  by_cases hany : m.any (fun p => p.1 == k) = true
  · rw [if_pos hany]
    by_cases hfk : f = k
    · rw [if_pos hfk, hfk, metaLookup_map_self m k v hany]
    · rw [if_neg hfk, metaLookup_map_ne m k v f hfk]
  · rw [if_neg hany]
    by_cases hfk : f = k
    · rw [if_pos hfk, hfk,
        metaLookup_append_single_self m k v (Bool.not_eq_true _ ▸ hany)]
    · rw [if_neg hfk, metaLookup_append_single_ne m k v f hfk]

theorem cls_setField (i : IPSOObject) (p : String) (v : Value) :
    (setField i p v).cls = i.cls := rfl

theorem options_setField (i : IPSOObject) (p : String) (v : Value) :
    (setField i p v).options = i.options := rfl

theorem fields_setField (i : IPSOObject) (p : String) (v : Value) :
    (setField i p v).fields = jsSet i.fields p v := rfl

theorem getField_setField (i : IPSOObject) (p : String) (v : Value)
    (f : String) :
    (setField i p v).getField f =
      if f = p then some v else i.getField f := by
  show metaLookup (jsSet i.fields p v) f = _
  rw [metaLookup_jsSet]
  rfl

theorem hasOwn_setField (i : IPSOObject) (p : String) (v : Value)
    (f : String) :
    (setField i p v).hasOwn f = ((f = p : Bool) || i.hasOwn f) := by
  show (jsSet i.fields p v).any _ = _
  rw [metaLookup_isSome_any, metaLookup_jsSet]
  by_cases hfp : f = p
  · simp [hfp]
  · simp [hfp, IPSOObject.hasOwn, metaLookup_isSome_any]

theorem cls_merge (i : IPSOObject) (obj : List (String × Value)) :
    (merge i obj).cls = i.cls := by
  induction obj generalizing i with
  | nil => rfl
  | cons kv rest ih =>
      show (merge (if i.hasOwn kv.1 then setField i kv.1 kv.2 else i)
        rest).cls = i.cls
      by_cases h : i.hasOwn kv.1 = true
      · rw [if_pos h, ih, cls_setField]
      · rw [if_neg h, ih]

theorem options_merge (i : IPSOObject) (obj : List (String × Value)) :
    (merge i obj).options = i.options := by
  induction obj generalizing i with
  | nil => rfl
  | cons kv rest ih =>
      show (merge (if i.hasOwn kv.1 then setField i kv.1 kv.2 else i)
        rest).options = i.options
      by_cases h : i.hasOwn kv.1 = true
      · rw [if_pos h, ih, options_setField]
      · rw [if_neg h, ih]

/-- Claim C9: unwrapping a proxy returns exactly the wrapped instance;
unwrapping a plain instance (whose `isProxy` field still holds its
initializer `false`) returns the instance itself, so unwrapping is
idempotent. -/
theorem claim_C9_unproxy (x : IPSOObject) :
    (createProxy x).unproxyCall = x ∧ x.unproxy = x ∧
      x.unproxy.unproxy = x.unproxy :=
  ⟨rfl, rfl, rfl⟩

/-- Claim C8: a wire key that resolves neither a deserializer nor a
registry mapping is skipped: the entry leaves the instance untouched,
`parse` continues with the remaining entries (never throwing — `parse` is
total by its type), and still returns the mutated instance. -/
theorem claim_C8_unknownKey (self : IPSOObject) (key : String) (value : Value)
    (rest : List (String × Value))
    (hdeser : getDeserializer self.cls key = none)
    (hlookup : lookupKeyOrProperty self.cls key = none) :
    parseEntry self key value = self ∧
      parse self ((key, value) :: rest) = parse self rest := by
  have hentry : parseEntry self key value = self := by
    unfold parseEntry
    rw [hdeser, hlookup]
  exact ⟨hentry, by simp [parse, hentry]⟩

/-- Witness for claim C8 on the metadata-free example class. -/
theorem claim_C8_witness :
    parseEntry exNoKey "99" (.vnum 7) = exNoKey ∧
      parse exNoKey [("99", .vnum 7)] = parse exNoKey [] :=
  claim_C8_unknownKey exNoKey "99" (.vnum 7) [] (by decide) (by decide)

/-- Claim C7: `merge` overwrites exactly the fields that occur in the
partial object and are existing own properties, leaves every other field
unchanged, ignores entries that are not own properties, applies no
transform (the stored value is the partial object entry itself), and
returns the (mutated) instance; class metadata and options are untouched. -/
theorem claim_C7_merge (self : IPSOObject) (p : List (String × Value))
    (f : String) (hnodup : (p.map Prod.fst).Nodup) :
    (merge self p).cls = self.cls ∧
    (merge self p).options = self.options ∧
    (merge self p).getField f =
      (match p.find? (fun kv => kv.1 == f) with
       | some kv =>
           if self.hasOwn f then some kv.2 else self.getField f
       | none => self.getField f) := by
  refine ⟨cls_merge self p, options_merge self p, ?_⟩
  induction p generalizing self with
  | nil => rfl
  | cons kv rest ih =>
      rw [List.map_cons, List.nodup_cons] at hnodup
      obtain ⟨hnotin, hrest⟩ := hnodup
      have hstep : merge self (kv :: rest) =
          merge (if self.hasOwn kv.1 then setField self kv.1 kv.2 else self)
            rest := rfl
      rw [hstep]
      by_cases hkf : kv.1 = f
      · -- the head entry targets f; f cannot recur in the tail
        have hfindrest : rest.find? (fun kv2 => kv2.1 == f) = none := by
          rw [List.find?_eq_none]

          intro x hx hbeq
          exact hnotin (hkf ▸ (beq_iff_eq.mp hbeq) ▸ List.mem_map_of_mem Prod.fst hx)
        have hfind : (kv :: rest).find? (fun kv2 => kv2.1 == f) = some kv := by
          simp [List.find?, beq_iff_eq.mpr hkf]
        rw [hfind]
        by_cases hown : self.hasOwn kv.1 = true
        · rw [if_pos hown, ih _ hrest, hfindrest]
          have hownf : self.hasOwn f = true := hkf ▸ hown
          simp [getField_setField, hownf, hkf]
        · rw [if_neg hown, ih _ hrest, hfindrest]
          have hownf : ¬self.hasOwn f = true := fun hh => hown (hkf ▸ hh)
          simp [hownf]
      · -- the head entry targets a different property
        have hfind : (kv :: rest).find? (fun kv2 => kv2.1 == f) =
            rest.find? (fun kv2 => kv2.1 == f) := by
          simp [List.find?, beq_eq_false_iff_ne.mpr hkf]
        rw [hfind]
        by_cases hown : self.hasOwn kv.1 = true
        · rw [if_pos hown, ih _ hrest]
          have hget : (setField self kv.1 kv.2).getField f = self.getField f := by
            rw [getField_setField, if_neg (fun hh => hkf hh.symm)]
          have hhas : (setField self kv.1 kv.2).hasOwn f = self.hasOwn f := by
            have hfk : ¬f = kv.1 := fun hh => hkf hh.symm
            rw [hasOwn_setField]
            simp [hfk]
          simp only [hget, hhas]
        · rw [if_neg hown, ih _ hrest]

/-- Witness for claim C7: overwrite `f`, ignore the unknown key `g`. -/
theorem claim_C7_witness :
    (merge exInstF [("f", .vnum 9), ("g", .vnum 3)]).cls = exInstF.cls ∧
    (merge exInstF [("f", .vnum 9), ("g", .vnum 3)]).options = exInstF.options ∧
    (merge exInstF [("f", .vnum 9), ("g", .vnum 3)]).getField "f" =
      (match [("f", Value.vnum 9), ("g", Value.vnum 3)].find?
          (fun kv => kv.1 == "f") with
       | some kv =>
           if exInstF.hasOwn "f" then some kv.2 else exInstF.getField "f"
       | none => exInstF.getField "f") :=
  claim_C7_merge exInstF [("f", .vnum 9), ("g", .vnum 3)] "f" (by decide)

/-- Transform kernels never turn a non-nullish value into a nullish one. -/
theorem applyKernel_nonNullish (k : TKernel) (v : Value)
    (h : isNullish v = false) : isNullish (applyKernel k v) = false := by
  cases k with
  | boolSer => rfl
  | boolDeser => rfl
  | ident => exact h
  | constNum n => rfl
  | addNum n => cases v <;> first | rfl | exact h

theorem maybeTransform_nonNullish (options : IPSOOptions)
    (t : Option PropertyTransform) (v : Value) (h : isNullish v = false) :
    isNullish (maybeTransform options t v) = false := by
  cases t with
  | none => exact h
  | some tr =>
      simp only [maybeTransform]
      by_cases hc : (tr.neverSkip || !options.skipBasicSerializers) = true
      · rw [if_pos hc]
        exact applyKernel_nonNullish tr.kernel v h
      · rw [if_neg hc]
        exact h

/-- Strict equality with a non-nullish left side forces the right side to
be non-nullish too. -/
theorem jsStrictEq_nonNullish (a b : Value) (ha : isNullish a = false)
    (h : jsStrictEq a b = true) : isNullish b = false := by
  cases a <;> cases b <;> simp_all [jsStrictEq, isNullish]

/-- Claim C5 counterexample: parsing a nested structure for a field with no
deserialize transform does not leave the field untouched — the instance
field `f`, previously `5`, is overwritten with `undefined`. -/
theorem claim_C5_counterexample :
    parse exInstF [("9001", .vrec [])] =
      .mk exClsF {} [("f", .vundefined)] ∧
    Value.vundefined ≠ Value.vnum 5 := by
  constructor
  · simp [parse, parseEntry, parseValue, exInstF, exClsF, getDeserializer,
      getPropertyType, metaLookup, lookupKeyOrProperty, ipsoKeyMap, jsSet,
      setField, typeofIsObject, IPSOObject.cls, IPSOObject.options,
      IPSOObject.fields, defaultDeserializers]
  · intro h
    exact Value.noConfusion h

/-- Claim C5 (amended): when `parseValue` meets an object-shaped value
(not an array being split) and no deserialize transform exists, a
diagnostic is logged and the implicit return yields `undefined`, which
`parse` then assigns to the field — overwriting any previous value rather
than leaving the field untouched. -/
theorem claim_C5_amended :
    (∀ (options : IPSOOptions) (propKey : String) (value : Value)
      (split : Bool), typeofIsObject value = true →
      (∀ es, value = .varr es → split = false) →
      parseValue options propKey value none split = .vundefined) ∧
    (∀ (self : IPSOObject) (key : String) (value : Value)
      (rest : List (String × Value)) (propName : String),
      getDeserializer self.cls key = none →
      lookupKeyOrProperty self.cls key = some propName →
      getDeserializer self.cls propName = none →
      typeofIsObject value = true →
      (∀ es, value ≠ .varr es) →
      parse self ((key, value) :: rest) =
        parse (setField self propName .vundefined) rest) := by
  have hval : ∀ (options : IPSOOptions) (propKey : String) (value : Value)
      (split : Bool), typeofIsObject value = true →
      (∀ es, value = .varr es → split = false) →
      parseValue options propKey value none split = .vundefined := by
    intro options propKey value split hobj harr
    cases value with
    | varr es =>
        have : split = false := harr es rfl
        subst this
        simp [parseValue, typeofIsObject]
    | vnull => simp [parseValue, typeofIsObject]
    | vrec es => simp [parseValue, typeofIsObject]
    | vobj i => simp [parseValue, typeofIsObject]
    | vundefined => simp [typeofIsObject] at hobj
    | vbool b => simp [typeofIsObject] at hobj
    | vnum n => simp [typeofIsObject] at hobj
    | vstr s => simp [typeofIsObject] at hobj
  refine ⟨hval, ?_⟩
  intro self key value rest propName hdeser hlookup hdeser2 hobj harr
  have hentry : parseEntry self key value = setField self propName .vundefined := by
    unfold parseEntry
    simp only [hdeser, hlookup, hdeser2]
    rw [hval self.options key value true hobj (fun es hes => absurd hes (harr es))]
  show parse (parseEntry self key value) rest = _
  rw [hentry]

/-- Witness for the amended claim C5 at a concrete nested value. -/
theorem claim_C5_witness :
    parse exInstF [("9001", .vrec [("x", .vnum 1)])] =
      parse (setField exInstF "f" .vundefined) [] :=
  claim_C5_amended.2 exInstF "9001" (.vrec [("x", .vnum 1)]) [] "f"
    (by decide) (by decide) (by decide) (by decide)
    (fun es h => Value.noConfusion h)

/-- Claim C6: a boolean-typed field with no declared transforms gets the
default transforms: deserialization maps `1`, `"true"`, `"on"`, `true` to
`true` and every other (non-split-array) raw value to `false`;
serialization maps a boolean to `1`/`0`; both defaults are `neverSkip`, so
they apply under arbitrary instance options. -/
theorem claim_C6_booleanDefaults (cls : ClassDesc) (f : String)
    (hser : metaLookup cls.serializeMeta f = none)
    (hdeser : metaLookup cls.deserializeMeta f = none)
    (hty : getPropertyType cls f = some "Boolean") :
    getSerializer cls f = some boolSerTransform ∧
    getDeserializer cls f = some boolDeserTransform ∧
    boolSerTransform.neverSkip = true ∧
    boolDeserTransform.neverSkip = true ∧
    (∀ (options : IPSOOptions) (propKey : String) (v : Value),
      (∀ es, v ≠ Value.varr es) →
      parseValue options propKey v (some boolDeserTransform) true =
        .vbool (jsStrictEq v (.vnum 1) || jsStrictEq v (.vstr "true") ||
          jsStrictEq v (.vstr "on") || jsStrictEq v (.vbool true))) ∧
    (∀ (self : IPSOObject) (reference : Value) (propName : String) (b : Bool),
      serializeValue self reference propName (.vbool b) .vnull
        (some boolSerTransform) = .ok (.vnum (if b then 1 else 0))) := by
  refine ⟨?_, ?_, rfl, rfl, ?_, ?_⟩
  · unfold getSerializer
    rw [hser, hty]
    rfl
  · unfold getDeserializer
    rw [hdeser, hty]
    rfl
  · intro options propKey v harr
    cases v with
    | varr es => exact absurd rfl (harr es)
    | vnull => simp [parseValue, typeofIsObject, boolDeserTransform,
        buildPropertyTransform, applyKernel]
    | vundefined => simp [parseValue, typeofIsObject, boolDeserTransform,
        buildPropertyTransform, applyKernel]
    | vbool b => simp [parseValue, typeofIsObject, boolDeserTransform,
        buildPropertyTransform, applyKernel]
    | vnum n => simp [parseValue, typeofIsObject, boolDeserTransform,
        buildPropertyTransform, applyKernel]
    | vstr s => simp [parseValue, typeofIsObject, boolDeserTransform,
        buildPropertyTransform, applyKernel]
    | vrec es => simp [parseValue, typeofIsObject, boolDeserTransform,
        buildPropertyTransform, applyKernel]
    | vobj i => simp [parseValue, typeofIsObject, boolDeserTransform,
        buildPropertyTransform, applyKernel]
  · intro selfI reference propName b
    simp [serializeValue, isNullish, maybeTransform, boolSerTransform,
      buildPropertyTransform, applyKernel, truthy]

/-- Witness for claim C6 on the boolean example class, with options that
request skipping basic serializers (the defaults still apply). -/
theorem claim_C6_witness :
    getSerializer exClsBool "b" = some boolSerTransform ∧
    getDeserializer exClsBool "b" = some boolDeserTransform ∧
    boolSerTransform.neverSkip = true ∧
    boolDeserTransform.neverSkip = true ∧
    (∀ (options : IPSOOptions) (propKey : String) (v : Value),
      (∀ es, v ≠ Value.varr es) →
      parseValue options propKey v (some boolDeserTransform) true =
        .vbool (jsStrictEq v (.vnum 1) || jsStrictEq v (.vstr "true") ||
          jsStrictEq v (.vstr "on") || jsStrictEq v (.vbool true))) ∧
    (∀ (self : IPSOObject) (reference : Value) (propName : String) (b : Bool),
      serializeValue self reference propName (.vbool b) .vnull
        (some boolSerTransform) = .ok (.vnum (if b then 1 else 0))) :=
  claim_C6_booleanDefaults exClsBool "b" (by decide) (by decide) (by decide)

/-- Claim C3: with a non-null reference value and a non-instance field
value, `serializeValue` drops the field exactly when it is not required
and the raw (pre-transform) values are strictly equal; otherwise the
transform (when applicable) is applied afterwards to the raw value — in
particular a required field survives even when the values are equal, with
a non-null result. -/
theorem claim_C3_differential (self : IPSOObject) (reference : Value)
    (propName : String) (value refValue : Value)
    (transform : Option PropertyTransform)
    (hinst : value.isInstanceVal = false)
    (href : isNullish refValue = false) :
    (serializeValue self reference propName value refValue transform =
      .ok (if (!isRequired self reference propName &&
            jsStrictEq refValue value) = true then Value.vnull
           else maybeTransform self.options transform value)) ∧
    (isRequired self reference propName = true →
      jsStrictEq refValue value = true →
      isNullish (maybeTransform self.options transform value) = false) := by
  constructor
  · cases value with
    | vobj i => simp [Value.isInstanceVal] at hinst
    | vnull =>
        simp [serializeValue, href]
        split <;> rfl
    | vundefined =>
        simp [serializeValue, href]
        split <;> rfl
    | vbool b =>
        simp [serializeValue, href]
        split <;> rfl
    | vnum n =>
        simp [serializeValue, href]
        split <;> rfl
    | vstr s =>
        simp [serializeValue, href]
        split <;> rfl
    | varr es =>
        simp [serializeValue, href]
        split <;> rfl
    | vrec es =>
        simp [serializeValue, href]
        split <;> rfl
  · intro _ heq
    exact maybeTransform_nonNullish self.options transform value
      (jsStrictEq_nonNullish refValue value href heq)

/-- Witness for claim C3: equal raw values under a required and a
non-required reading at a concrete input. -/
theorem claim_C3_witness :
    (serializeValue exInstF (.vrec [("f", .vnum 5)]) "f" (.vnum 5) (.vnum 5)
      none =
      .ok (if (!isRequired exInstF (.vrec [("f", .vnum 5)]) "f" &&
            jsStrictEq (.vnum 5) (.vnum 5)) = true then Value.vnull
           else maybeTransform exInstF.options none (.vnum 5))) ∧
    (isRequired exInstF (.vrec [("f", .vnum 5)]) "f" = true →
      jsStrictEq (.vnum 5) (.vnum 5) = true →
      isNullish (maybeTransform exInstF.options none (.vnum 5)) = false) :=
  claim_C3_differential exInstF (.vrec [("f", .vnum 5)]) "f" (.vnum 5)
    (.vnum 5) none (by decide) (by decide)

/-- Claim C10: a serializable, non-private field with no declared wire key
gets `null` from the registry lookup, and its non-null serialized value is
emitted under the coerced string key `"null"` (not skipped, not emitted
under the field name). -/
theorem claim_C10_nullKey (self : IPSOObject) (reference : Value)
    (ret : List (String × Value)) (propName : String) (value : Value)
    (rest : List (String × Value)) (v : Value)
    (hund : startsWithUnderscore propName = false)
    (hserz : isSerializable self.cls propName = true)
    (hkey : lookupKeyOrProperty self.cls propName = none)
    (hval : serializeFieldValue self reference propName value = .ok v)
    (hnn : isNullish v = false) :
    serializeFields self reference ret ((propName, value) :: rest) =
      serializeFields self reference (jsSet ret "null" v) rest := by
  rw [serializeFields]
  rw [hund, hserz]
  simp only [Bool.not_false, Bool.true_and, if_true, hval, hkey,
    Option.getD_none, hnn, Bool.not_false, if_true]

/-- Witness for claim C10: the key-less field `f = 5` of the metadata-free
class lands under the key `"null"`. -/
theorem claim_C10_witness :
    serializeFields exNoKey .vnull [] [("f", .vnum 5)] =
      serializeFields exNoKey .vnull (jsSet [] "null" (.vnum 5)) [] :=
  claim_C10_nullKey exNoKey .vnull [] "f" (.vnum 5) [] (.vnum 5)
    (by decide) (by decide) (by decide)
    (by simp [serializeFieldValue, serializeValue, refValueOf, refHasOwn,
      isNullish, getSerializer, getPropertyType, metaLookup, splitOf,
      maybeTransform, exNoKey, exClsEmpty, IPSOObject.cls,
      IPSOObject.options])
    (by decide)

/-- Claim C1 counterexample: the child's serialized form `{"1": 5}`
contains exactly one key, and that key is required — the claim predicts
the nested object is treated as non-empty and emitted under its wire key
`"c"`, but `isSerializedObjectEmpty` reports `true` and the parent output
is empty. -/
theorem claim_C1_counterexample :
    serialize exChildReq .vnull = .ok [("1", .vnum 5)] ∧
    isRequired exChildReq .vnull
      ((lookupKeyOrProperty exChildReq.cls "1").getD "null") = true ∧
    isSerializedObjectEmpty exChildReq [("1", .vnum 5)] .vnull = true ∧
    serialize exParentReq .vnull = .ok [] := by
  refine ⟨?_, by decide, by decide, ?_⟩
  · simp [serialize, serializeFields, serializeFieldValue, serializeValue,
      exChildReq, exClsReq, refValueOf, refHasOwn, isNullish, getSerializer,
      getPropertyType, metaLookup, splitOf, lookupKeyOrProperty, ipsoKeyMap,
      jsSet, isSerializable, isRequired, maybeTransform, jsStrictEq,
      IPSOObject.cls, IPSOObject.options, IPSOObject.fields,
      isSerializedObjectEmpty, evalRPred, startsWithUnderscore]
  · simp [serialize, serializeFields, serializeFieldValue, serializeValue,
      exParentReq, exClsParent, exChildReq, exClsReq, refValueOf, refHasOwn,
      isNullish, getSerializer, getPropertyType, metaLookup, splitOf,
      lookupKeyOrProperty, ipsoKeyMap, jsSet, isSerializable, isRequired,
      maybeTransform, jsStrictEq, IPSOObject.cls, IPSOObject.options,
      IPSOObject.fields, isSerializedObjectEmpty, evalRPred,
      startsWithUnderscore]

/-- Claim C1 (amended): a serialized nested object is treated as empty —
and therefore omitted by its parent — if and only if every key present in
its serialized form corresponds to a required field; if even one
non-required key is present, the nested object is non-empty and the
(non-null) serialized record survives to be emitted under the wire key. -/
theorem claim_C1_amended (self : IPSOObject) (reference : Value)
    (propName : String) (nested : IPSOObject) (refValue : Value)
    (transform : Option PropertyTransform) (s : List (String × Value))
    (hser : serialize nested refValue = .ok s) :
    (serializeValue self reference propName (.vobj nested) refValue
        transform = .ok .vnull ↔
      isSerializedObjectEmpty nested s reference = true) ∧
    (isSerializedObjectEmpty nested s reference = true ↔
      ∀ kv ∈ s, isRequired nested reference
        ((lookupKeyOrProperty nested.cls kv.1).getD "null") = true) := by
  constructor
  · have hstep : serializeValue self reference propName (.vobj nested)
        refValue transform =
        (if isSerializedObjectEmpty nested s reference then .ok .vnull
         else .ok (maybeTransform self.options transform (.vrec s))) := by
      rw [serializeValue]
      simp only [hser]
    rw [hstep]
    by_cases hempty : isSerializedObjectEmpty nested s reference = true
    · simp [hempty]
    · have hnn : isNullish (maybeTransform self.options transform
          (.vrec s)) = false :=
        maybeTransform_nonNullish self.options transform (.vrec s) rfl
      simp only [hempty, if_neg, Bool.false_eq_true, if_false]
      constructor
      · intro h
        have := Except.ok.inj h
        rw [this] at hnn
        exact absurd hnn (by simp [isNullish])
      · intro h
        exact h.elim
  · simp [isSerializedObjectEmpty, List.all_eq_true]

/-- Witness for the amended claim C1 at the all-required child. -/
theorem claim_C1_witness :
    (serializeValue exParentReq .vnull "child" (.vobj exChildReq) .vnull
        none = .ok .vnull ↔
      isSerializedObjectEmpty exChildReq [("1", .vnum 5)] .vnull = true) ∧
    (isSerializedObjectEmpty exChildReq [("1", .vnum 5)] .vnull = true ↔
      ∀ kv ∈ [("1", Value.vnum 5)], isRequired exChildReq .vnull
        ((lookupKeyOrProperty exChildReq.cls kv.1).getD "null") = true) :=
  claim_C1_amended exParentReq .vnull "child" exChildReq .vnull none
    [("1", .vnum 5)]
    (by simp [serialize, serializeFields, serializeFieldValue,
      serializeValue, exChildReq, exClsReq, refValueOf, refHasOwn, isNullish,
      getSerializer, getPropertyType, metaLookup, splitOf,
      lookupKeyOrProperty, ipsoKeyMap, jsSet, isSerializable, isRequired,
      maybeTransform, jsStrictEq, IPSOObject.cls, IPSOObject.options,
      IPSOObject.fields, isSerializedObjectEmpty, evalRPred,
      startsWithUnderscore])

/-- Every error any of the serialization functions can produce carries the
single array-length-mismatch message: the source contains exactly one
`throw`. Proved by strong induction on the size of the recursive
argument. -/
theorem serialize_onlyError :
    ∀ n : Nat,
      (∀ (self : IPSOObject) (reference : Value) (propName : String)
        (value refValue : Value) (t : Option PropertyTransform) (e : String),
        sizeOf value ≤ n →
        serializeValue self reference propName value refValue t = .error e →
        e = mismatchError) ∧
      (∀ (self : IPSOObject) (reference : Value) (propName : String)
        (elems refs : List Value) (t : Option PropertyTransform) (e : String),
        sizeOf elems ≤ n →
        serializeValueList self reference propName elems refs t = .error e →
        e = mismatchError) ∧
      (∀ (self : IPSOObject) (reference : Value) (propName : String)
        (value : Value) (e : String),
        sizeOf value ≤ n →
        serializeFieldValue self reference propName value = .error e →
        e = mismatchError) ∧
      (∀ (self : IPSOObject) (reference : Value)
        (ret fields : List (String × Value)) (e : String),
        sizeOf fields ≤ n →
        serializeFields self reference ret fields = .error e →
        e = mismatchError) ∧
      (∀ (self : IPSOObject) (reference : Value) (e : String),
        sizeOf self ≤ n →
        serialize self reference = .error e → e = mismatchError) := by
  intro n
  induction n using Nat.strong_induction_on with
  | _ n IH =>
  have hV : ∀ (self : IPSOObject) (reference : Value) (propName : String)
      (value refValue : Value) (t : Option PropertyTransform) (e : String),
      sizeOf value ≤ n →
      serializeValue self reference propName value refValue t = .error e →
      e = mismatchError := by
    intro self reference propName value refValue t e hsz heq
    by_cases hobj : ∃ nested, value = Value.vobj nested
    · obtain ⟨nested, rfl⟩ := hobj
      have hlt : sizeOf nested < n := by
        have : sizeOf nested < sizeOf (Value.vobj nested) := by simp
        omega
      rw [serializeValue.eq_1] at heq
      cases hs : serialize nested refValue with
      | error e2 =>
          rw [hs] at heq
          simp only [Except.error.injEq] at heq
          exact heq ▸
            (IH (sizeOf nested) hlt).2.2.2.2 nested refValue e2 le_rfl hs
      | ok s =>
          rw [hs] at heq
          split at heq <;> simp_all
          split at heq <;> simp_all
    · rw [serializeValue.eq_2 self reference propName value refValue t
        (fun nested h => hobj ⟨nested, h⟩)] at heq
      split at heq <;> exact Except.noConfusion heq
  have hL : ∀ (self : IPSOObject) (reference : Value) (propName : String)
      (elems refs : List Value) (t : Option PropertyTransform) (e : String),
      sizeOf elems ≤ n →
      serializeValueList self reference propName elems refs t = .error e →
      e = mismatchError := by
    intro self reference propName elems refs t e hsz heq
    cases elems with
    | nil => simp [serializeValueList] at heq
    | cons v vs =>
        have hszv : sizeOf v ≤ n := by
          have : sizeOf v < sizeOf (v :: vs) := by simp; omega
          omega
        have hltvs : sizeOf vs < n := by
          have : sizeOf vs < sizeOf (v :: vs) := by simp
          omega
        simp only [serializeValueList] at heq
        cases h1 : serializeValue self reference propName v (refs.headD .vnull)
            t with
        | error e1 =>
            rw [h1] at heq
            simp only [Except.error.injEq] at heq
            exact heq ▸
              hV self reference propName v (refs.headD .vnull) t e1 hszv h1
        | ok sv =>
            rw [h1] at heq
            cases h2 : serializeValueList self reference propName vs refs.tail
                t with
            | error e2 =>
                rw [h2] at heq
                simp only [Except.error.injEq] at heq
                exact heq ▸ (IH (sizeOf vs) hltvs).2.1 self reference propName
                  vs refs.tail t e2 le_rfl h2
            | ok rest => rw [h2] at heq; simp at heq
  have hA : ∀ (self : IPSOObject) (reference : Value) (propName : String)
      (elems : List Value) (refValue : Value) (t : Option PropertyTransform)
      (e : String),
      sizeOf elems ≤ n →
      serializeArray self reference propName elems refValue t = .error e →
      e = mismatchError := by
    intro self reference propName elems refValue t e hsz heq
    by_cases href : ∃ refElems, refValue = Value.varr refElems
    · obtain ⟨refElems, rfl⟩ := href
      rw [serializeArray.eq_1] at heq
      simp only [isNullish, Bool.not_false, if_pos] at heq
      split at heq
      · -- lengths match: only the element list can raise
        split at heq
        · rename_i e2 hx
          simp only [Except.error.injEq] at heq
          exact heq ▸ hL self reference propName elems refElems t e2 hsz hx
        · exact Except.noConfusion heq
      · exact (Except.error.inj heq).symm
    · rw [serializeArray.eq_2 self reference propName elems refValue t
        (fun refElems h => href ⟨refElems, h⟩)] at heq
      split at heq
      · exact (Except.error.inj heq).symm
      · -- no reference value: only the element list can raise
        split at heq
        · rename_i e2 hx
          simp only [Except.error.injEq] at heq
          exact heq ▸ hL self reference propName elems [] t e2 hsz hx
        · exact Except.noConfusion heq
  have hFV : ∀ (self : IPSOObject) (reference : Value) (propName : String)
      (value : Value) (e : String),
      sizeOf value ≤ n →
      serializeFieldValue self reference propName value = .error e →
      e = mismatchError := by
    intro self reference propName value e hsz heq
    by_cases harr : ∃ elems, value = Value.varr elems
    · obtain ⟨elems, rfl⟩ := harr
      have hszes : sizeOf elems ≤ n := by
        have : sizeOf elems < sizeOf (Value.varr elems) := by simp
        omega
      rw [serializeFieldValue.eq_1] at heq
      split at heq
      · exact hA self reference propName elems
          (refValueOf reference propName)
          (getSerializer self.cls propName) e hszes heq
      · exact hV self reference propName (.varr elems)
          (refValueOf reference propName)
          (getSerializer self.cls propName) e hsz heq
    · rw [serializeFieldValue.eq_2 self reference propName value
        (fun elems h => harr ⟨elems, h⟩)] at heq
      exact hV self reference propName value (refValueOf reference propName)
        (getSerializer self.cls propName) e hsz heq
  have hF : ∀ (self : IPSOObject) (reference : Value)
      (ret fields : List (String × Value)) (e : String),
      sizeOf fields ≤ n →
      serializeFields self reference ret fields = .error e →
      e = mismatchError := by
    intro self reference ret fields e hsz heq
    cases fields with
    | nil => simp [serializeFields] at heq
    | cons pv rest =>
        obtain ⟨propName, value⟩ := pv
        have hszv : sizeOf value ≤ n := by
          have : sizeOf value < sizeOf ((propName, value) :: rest) := by
            simp; omega
          omega
        have hltrest : sizeOf rest < n := by
          have : sizeOf rest < sizeOf ((propName, value) :: rest) := by
            simp
          omega
        simp only [serializeFields] at heq
        split at heq
        · cases hfv : serializeFieldValue self reference propName value with
          | error e1 =>
              rw [hfv] at heq
              simp only [Except.error.injEq] at heq
              exact heq ▸ hFV self reference propName value e1 hszv hfv
          | ok v =>
              rw [hfv] at heq
              exact (IH (sizeOf rest) hltrest).2.2.2.1 self reference _ rest e
                le_rfl heq
        · exact (IH (sizeOf rest) hltrest).2.2.2.1 self reference ret rest e
            le_rfl heq
  have hS : ∀ (self : IPSOObject) (reference : Value) (e : String),
      sizeOf self ≤ n →
      serialize self reference = .error e → e = mismatchError := by
    intro self reference e hsz heq
    cases self with
    | mk c o fields =>
        have hszf : sizeOf fields ≤ n := by
          have : sizeOf fields < sizeOf (IPSOObject.mk c o fields) := by
            simp
          omega
        simp only [serialize] at heq
        exact hF (.mk c o fields) reference [] fields e hszf heq
  exact ⟨hV, hL, hFV, hF, hS⟩

/-- Claim C2: when the field loop reaches an array-valued field with
array-splitting in effect and a non-null reference value whose length
differs from the value array, serialize aborts with the
array-length-mismatch error; and that single throw site is the only error
`serialize` can ever produce. -/
theorem claim_C2_arrayLengthMismatch :
    (∀ (self : IPSOObject) (reference : Value) (ret : List (String × Value))
      (propName : String) (elems : List Value)
      (rest : List (String × Value)) (refElems : List Value),
      startsWithUnderscore propName = false →
      isSerializable self.cls propName = true →
      splitOf (getSerializer self.cls propName) = true →
      refValueOf reference propName = .varr refElems →
      refElems.length ≠ elems.length →
      serializeFields self reference ret ((propName, .varr elems) :: rest) =
        .error mismatchError) ∧
    (∀ (self : IPSOObject) (reference : Value) (e : String),
      serialize self reference = .error e → e = mismatchError) := by
  constructor
  · intro self reference ret propName elems rest refElems hund hserz hsplit
      href hlen
    have hfv : serializeFieldValue self reference propName (.varr elems) =
        .error mismatchError := by
      rw [serializeFieldValue.eq_1, if_pos hsplit, href, serializeArray.eq_1,
        if_pos (by simp [isNullish] :
          (!isNullish (Value.varr refElems)) = true),
        if_neg (by simp [hlen])]
    rw [serializeFields.eq_2, if_pos (by simp [hund, hserz]), hfv]
  · intro self reference e h
    exact (serialize_onlyError (sizeOf self)).2.2.2.2 self reference e
      le_rfl h

/-- Witness for claim C2: a three-element array against a two-element
reference array aborts with the mismatch error. -/
theorem claim_C2_witness :
    serializeFields exInstArr exRefArr []
      [("f", .varr [.vnum 1, .vnum 2, .vnum 3])] = .error mismatchError :=
  claim_C2_arrayLengthMismatch.1 exInstArr exRefArr [] "f"
    [.vnum 1, .vnum 2, .vnum 3] [] [.vnum 1, .vnum 2]
    (by decide) (by decide) (by decide) rfl (by decide)

/-- Claim C4 counterexample: a parent whose `child` field holds a nested
instance (one non-required field, no declared deserializer) serializes to
`{"c": {"1": 5}}`, but a fresh instance parsed from that wire object
re-serializes to the empty record — the round trip loses the nested
object, so parse-then-serialize does not reproduce the original output. -/
theorem claim_C4_counterexample :
    serialize exParentOpt .vnull = .ok [("c", .vrec [("1", .vnum 5)])] ∧
    serialize
      (parse (IPSOObject.mk exParentOpt.cls exParentOpt.options [])
        [("c", .vrec [("1", .vnum 5)])]) .vnull = .ok [] ∧
    (Except.ok [("c", Value.vrec [("1", Value.vnum 5)])] ≠
      (Except.ok [] : Except String (List (String × Value)))) := by
  refine ⟨?_, ?_, by simp⟩
  · simp [serialize, serializeFields, serializeFieldValue, serializeValue,
      exParentOpt, exClsParent, exChildOpt, exClsOpt, refValueOf, refHasOwn,
      isNullish, getSerializer, getPropertyType, metaLookup, splitOf,
      lookupKeyOrProperty, ipsoKeyMap, jsSet, isSerializable, isRequired,
      maybeTransform, jsStrictEq, IPSOObject.cls, IPSOObject.options,
      IPSOObject.fields, isSerializedObjectEmpty, evalRPred,
      startsWithUnderscore]
  · simp [serialize, serializeFields, serializeFieldValue, serializeValue,
      parse, parseEntry, parseValue, setField, getDeserializer,
      defaultDeserializers, exParentOpt, exClsParent, refValueOf, refHasOwn,
      isNullish, getSerializer, getPropertyType, metaLookup, splitOf,
      lookupKeyOrProperty, ipsoKeyMap, jsSet, isSerializable, isRequired,
      maybeTransform, jsStrictEq, IPSOObject.cls, IPSOObject.options,
      IPSOObject.fields, isSerializedObjectEmpty, evalRPred,
      startsWithUnderscore, typeofIsObject]

/-- A primitive value is not an instance, so the non-instance equation of
`serializeValue` applies: with a null reference value the raw value is
kept and the transform step runs. -/
theorem serializeValue_prim (self : IPSOObject) (reference : Value)
    (propName : String) (v : Value) (s : Option PropertyTransform)
    (hprim : primValue v = true) :
    serializeValue self reference propName v .vnull s =
      .ok (maybeTransform self.options s v) := by
  have hno : ∀ nested, v = Value.vobj nested → False := by
    intro nested h
    subst h
    simp [primValue] at hprim
  rw [serializeValue.eq_2 self reference propName v .vnull s hno]
  simp [isNullish]

/-- Element-wise serialization of an all-primitive array with no reference
elements just applies the transform step to each element. -/
theorem serializeValueList_flat (self : IPSOObject) (reference : Value)
    (propName : String) (xs : List Value) (s : Option PropertyTransform)
    (hall : xs.all primValue = true) :
    serializeValueList self reference propName xs [] s =
      .ok (xs.map (fun x => maybeTransform self.options s x)) := by
  induction xs with
  | nil => rw [serializeValueList.eq_1, List.map_nil]
  | cons x rest ih =>
      rw [List.all_cons, Bool.and_eq_true] at hall
      rw [serializeValueList.eq_2]
      have hx := serializeValue_prim self reference propName x s hall.1
      have hrest := ih hall.2
      simp only [List.headD, List.tail, hx, hrest, List.map_cons]

/-- A flat field value with no reference serializes to its `flatWire`
value. -/
theorem serializeFieldValue_flat (self : IPSOObject) (propName : String)
    (v : Value) (hflat : flatValue v = true)
    (hsplit : splitOf (getSerializer self.cls propName) = true) :
    serializeFieldValue self .vnull propName v =
      .ok (flatWire self.options (getSerializer self.cls propName) v) := by
  have hrefv : refValueOf .vnull propName = .vnull := rfl
  cases v with
  | varr xs =>
      rw [serializeFieldValue.eq_1, if_pos hsplit, hrefv,
        serializeArray.eq_2 self .vnull propName xs .vnull
          (getSerializer self.cls propName)
          (fun refElems h => Value.noConfusion h),
        if_neg (by simp [isNullish]),
        serializeValueList_flat self .vnull propName xs
          (getSerializer self.cls propName) (by simpa [flatValue] using hflat)]
      rfl
  | vnull =>
      rw [serializeFieldValue.eq_2 self .vnull propName .vnull
        (fun elems h => Value.noConfusion h), hrefv]
      exact serializeValue_prim self .vnull propName .vnull
        (getSerializer self.cls propName) rfl
  | vundefined =>
      rw [serializeFieldValue.eq_2 self .vnull propName .vundefined
        (fun elems h => Value.noConfusion h), hrefv]
      exact serializeValue_prim self .vnull propName .vundefined
        (getSerializer self.cls propName) rfl
  | vbool b =>
      rw [serializeFieldValue.eq_2 self .vnull propName (.vbool b)
        (fun elems h => Value.noConfusion h), hrefv]
      exact serializeValue_prim self .vnull propName (.vbool b)
        (getSerializer self.cls propName) rfl
  | vnum m =>
      rw [serializeFieldValue.eq_2 self .vnull propName (.vnum m)
        (fun elems h => Value.noConfusion h), hrefv]
      exact serializeValue_prim self .vnull propName (.vnum m)
        (getSerializer self.cls propName) rfl
  | vstr st =>
      rw [serializeFieldValue.eq_2 self .vnull propName (.vstr st)
        (fun elems h => Value.noConfusion h), hrefv]
      exact serializeValue_prim self .vnull propName (.vstr st)
        (getSerializer self.cls propName) rfl
  | vrec es => simp [flatValue, primValue] at hflat
  | vobj i => simp [flatValue, primValue] at hflat

/-- `jsSet` on a fresh key is an append. -/
theorem jsSet_append {α : Type} (m : List (String × α)) (k : String) (v : α)
    (h : m.any (fun p => p.1 == k) = false) :
    jsSet m k v = m ++ [(k, v)] := by
  unfold jsSet
  rw [if_neg (by simp [h])]

/-- Key membership as `any`. -/
theorem any_fst_eq_false {α : Type} (m : List (String × α)) (k : String)
    (h : k ∉ m.map Prod.fst) : m.any (fun p => p.1 == k) = false := by
  rw [List.any_eq_false]
  intro p hp hbeq
  exact h (beq_iff_eq.mp hbeq ▸ List.mem_map_of_mem Prod.fst hp)

/-- Unfolding `flatEmit` over a cons cell. -/
theorem flatEmit_cons (cls : ClassDesc) (options : IPSOOptions) (f : String)
    (v : Value) (rest : List (String × Value)) :
    flatEmit cls options ((f, v) :: rest) =
      if ((!startsWithUnderscore f && isSerializable cls f) &&
          !(isNullish (flatWire options (getSerializer cls f) v))) = true then
        ((lookupKeyOrProperty cls f).getD "null",
          flatWire options (getSerializer cls f) v) ::
          flatEmit cls options rest
      else flatEmit cls options rest := by
  by_cases hc : ((!startsWithUnderscore f && isSerializable cls f) &&
      !(isNullish (flatWire options (getSerializer cls f) v))) = true
  · rw [if_pos hc, flatEmit, List.filterMap_cons]
    simp only [hc, if_true]
    rfl
  · rw [if_neg hc, flatEmit, List.filterMap_cons]
    simp only [Bool.not_eq_true] at hc
    simp only [hc]
    rfl

/-- Unfolding `flatParsed` over a cons cell. -/
theorem flatParsed_cons (cls : ClassDesc) (options : IPSOOptions)
    (f : String) (v : Value) (rest : List (String × Value)) :
    flatParsed cls options ((f, v) :: rest) =
      if ((!startsWithUnderscore f && isSerializable cls f) &&
          !(isNullish (flatWire options (getSerializer cls f) v))) = true then
        (f, parseValue options ((lookupKeyOrProperty cls f).getD "null")
          (flatWire options (getSerializer cls f) v)
          (getDeserializer cls f) (splitOf (getDeserializer cls f))) ::
          flatParsed cls options rest
      else flatParsed cls options rest := by
  by_cases hc : ((!startsWithUnderscore f && isSerializable cls f) &&
      !(isNullish (flatWire options (getSerializer cls f) v))) = true
  · rw [if_pos hc, flatParsed, List.filterMap_cons]
    simp only [hc, if_true]
    rfl
  · rw [if_neg hc, flatParsed, List.filterMap_cons]
    simp only [Bool.not_eq_true] at hc
    simp only [hc]
    rfl

/-- One passing step of the field loop with a known serialized value. -/
theorem serializeFields_cons_ok (self : IPSOObject) (reference : Value)
    (ret : List (String × Value)) (propName : String) (value : Value)
    (rest : List (String × Value)) (w : Value)
    (hpass : (!startsWithUnderscore propName &&
      isSerializable self.cls propName) = true)
    (hok : serializeFieldValue self reference propName value = .ok w) :
    serializeFields self reference ret ((propName, value) :: rest) =
      serializeFields self reference
        (if !(isNullish w) then
          jsSet ret ((lookupKeyOrProperty self.cls propName).getD "null") w
         else ret) rest := by
  rw [serializeFields.eq_2, if_pos hpass, hok]

/-- Serializing a flat field list with no reference appends exactly the
`flatEmit` record to the accumulated output. -/
theorem serializeFields_flat (self : IPSOObject)
    (fl : List (String × Value)) (ret : List (String × Value))
    (hcond : ∀ fv ∈ fl,
      (!startsWithUnderscore fv.1 && isSerializable self.cls fv.1) = true →
      flatValue fv.2 = true ∧
        splitOf (getSerializer self.cls fv.1) = true)
    (hnodup : (ret.map Prod.fst ++
      (flatEmit self.cls self.options fl).map Prod.fst).Nodup) :
    serializeFields self .vnull ret fl =
      .ok (ret ++ flatEmit self.cls self.options fl) := by
  induction fl generalizing ret with
  | nil => rw [serializeFields.eq_1, flatEmit, List.filterMap_nil,
      List.append_nil]
  | cons fv rest ih =>
      obtain ⟨f, v⟩ := fv
      have hcond' : ∀ fv ∈ rest,
          (!startsWithUnderscore fv.1 && isSerializable self.cls fv.1) =
            true →
          flatValue fv.2 = true ∧
            splitOf (getSerializer self.cls fv.1) = true :=
        fun fv hm hp => hcond fv (by simp [hm]) hp
      by_cases hpass : (!startsWithUnderscore f &&
          isSerializable self.cls f) = true
      · obtain ⟨hflat, hsplit⟩ := hcond (f, v) (by simp) hpass
        rw [serializeFields_cons_ok self .vnull ret f v rest _ hpass
          (serializeFieldValue_flat self f v hflat hsplit)]
        by_cases hnn : isNullish (flatWire self.options
            (getSerializer self.cls f) v) = false
        · have hcnd : ((!startsWithUnderscore f &&
              isSerializable self.cls f) &&
              !(isNullish (flatWire self.options (getSerializer self.cls f)
                v))) = true := by
            rw [hpass, hnn]
            rfl
          rw [flatEmit_cons, if_pos hcnd, List.map_cons] at hnodup
          have hdisj := List.nodup_append.mp hnodup
          have hfresh : ret.any (fun p =>
              p.1 == (lookupKeyOrProperty self.cls f).getD "null") = false := by
            apply any_fst_eq_false
            intro hmem
            exact hdisj.2.2 hmem (by simp)
          rw [if_pos (by simp [hnn] : (!(isNullish (flatWire self.options
              (getSerializer self.cls f) v))) = true),
            jsSet_append _ _ _ hfresh]
          have hnodup2 : ((ret ++
              [((lookupKeyOrProperty self.cls f).getD "null",
                flatWire self.options (getSerializer self.cls f) v)]).map
                Prod.fst ++
              (flatEmit self.cls self.options rest).map Prod.fst).Nodup := by
            rw [List.map_append, List.append_assoc, List.map_singleton,
              List.singleton_append]
            exact hnodup
          rw [ih _ hcond' hnodup2, flatEmit_cons, if_pos hcnd,
            List.append_assoc, List.singleton_append]
        · have hnnt : isNullish (flatWire self.options
              (getSerializer self.cls f) v) = true := by
            cases h : isNullish (flatWire self.options
              (getSerializer self.cls f) v)
            · exact absurd h hnn
            · rfl
          have hcnd : ((!startsWithUnderscore f &&
              isSerializable self.cls f) &&
              !(isNullish (flatWire self.options (getSerializer self.cls f)
                v))) = false := by
            rw [hnnt]
            simp
          rw [flatEmit_cons, if_neg (by simp [hcnd])] at hnodup
          rw [if_neg (by simp [hnnt])]
          rw [ih _ hcond' hnodup, flatEmit_cons, if_neg (by simp [hcnd])]
      · have hcnd : ((!startsWithUnderscore f &&
            isSerializable self.cls f) &&
            !(isNullish (flatWire self.options (getSerializer self.cls f)
              v))) = false := by
          simp only [Bool.not_eq_true] at hpass
          rw [hpass]
          simp
        rw [serializeFields.eq_2, if_neg hpass]
        rw [flatEmit_cons, if_neg (by simp [hcnd])] at hnodup
        rw [ih _ hcond' hnodup, flatEmit_cons, if_neg (by simp [hcnd])]

/-- A parse-loop step whose key resolves through the registry (no direct
deserializer) assigns the parsed value to the resolved property. -/
theorem parseEntry_resolved (cls : ClassDesc) (opts : IPSOOptions)
    (flds : List (String × Value)) (k : String) (w : Value)
    (f : String) (hd : getDeserializer cls k = none)
    (hl : lookupKeyOrProperty cls k = some f) :
    parseEntry (.mk cls opts flds) k w =
      .mk cls opts (jsSet flds f
        (parseValue opts k w (getDeserializer cls f)
          (splitOf (getDeserializer cls f)))) := by
  unfold parseEntry
  simp only [IPSOObject.cls, IPSOObject.options, hd, hl]
  rfl

/-- `parse` on a cons cell folds one entry. -/
theorem parse_cons (self : IPSOObject) (kv : String × Value)
    (rest : List (String × Value)) :
    parse self (kv :: rest) = parse (parseEntry self kv.1 kv.2) rest := rfl

/-- Parsing the emitted wire record of a flat field list into an instance
appends exactly the `flatParsed` fields. -/
theorem parse_flatEmit (cls : ClassDesc) (opts : IPSOOptions)
    (fl flds : List (String × Value))
    (hres : ∀ fv ∈ fl,
      ((!startsWithUnderscore fv.1 && isSerializable cls fv.1) &&
        !(isNullish (flatWire opts (getSerializer cls fv.1) fv.2))) = true →
      getDeserializer cls ((lookupKeyOrProperty cls fv.1).getD "null") =
        none ∧
      lookupKeyOrProperty cls ((lookupKeyOrProperty cls fv.1).getD "null") =
        some fv.1)
    (hnodup : (flds.map Prod.fst ++
      (flatParsed cls opts fl).map Prod.fst).Nodup) :
    parse (.mk cls opts flds) (flatEmit cls opts fl) =
      .mk cls opts (flds ++ flatParsed cls opts fl) := by
  induction fl generalizing flds with
  | nil =>
      rw [flatEmit, List.filterMap_nil, flatParsed, List.filterMap_nil,
        List.append_nil]
      rfl
  | cons fv rest ih =>
      obtain ⟨f, v⟩ := fv
      have hres' : ∀ fv ∈ rest,
          ((!startsWithUnderscore fv.1 && isSerializable cls fv.1) &&
            !(isNullish (flatWire opts (getSerializer cls fv.1) fv.2))) =
            true →
          getDeserializer cls ((lookupKeyOrProperty cls fv.1).getD "null") =
            none ∧
          lookupKeyOrProperty cls
            ((lookupKeyOrProperty cls fv.1).getD "null") = some fv.1 :=
        fun fv hm hp => hres fv (by simp [hm]) hp
      by_cases hcnd : ((!startsWithUnderscore f && isSerializable cls f) &&
          !(isNullish (flatWire opts (getSerializer cls f) v))) = true
      · obtain ⟨hd, hl⟩ := hres (f, v) (by simp) hcnd
        rw [flatEmit_cons, if_pos hcnd, parse_cons,
          parseEntry_resolved cls opts flds _ _ f hd hl]
        rw [flatParsed_cons, if_pos hcnd, List.map_cons] at hnodup
        have hdisj := List.nodup_append.mp hnodup
        have hfresh : flds.any (fun p => p.1 == f) = false := by
          apply any_fst_eq_false
          intro hmem
          exact hdisj.2.2 hmem (by simp)
        rw [jsSet_append _ _ _ hfresh]
        have hnodup2 : ((flds ++
            [(f, parseValue opts ((lookupKeyOrProperty cls f).getD "null")
              (flatWire opts (getSerializer cls f) v)
              (getDeserializer cls f)
              (splitOf (getDeserializer cls f)))]).map Prod.fst ++
            (flatParsed cls opts rest).map Prod.fst).Nodup := by
          rw [List.map_append, List.append_assoc, List.map_singleton,
            List.singleton_append]
          exact hnodup
        rw [ih _ hres' hnodup2, flatParsed_cons, if_pos hcnd,
          List.append_assoc, List.singleton_append]
      · rw [flatEmit_cons, if_neg hcnd]
        rw [flatParsed_cons, if_neg hcnd] at hnodup
        rw [ih _ hres' hnodup, flatParsed_cons, if_neg hcnd]

theorem maybeTransform_none (opts : IPSOOptions) (v : Value) :
    maybeTransform opts none v = v := rfl

/-- The default boolean serializer always applies (`neverSkip`). -/
theorem maybeTransform_boolSer (opts : IPSOOptions) (v : Value) :
    maybeTransform opts (some boolSerTransform) v =
      applyKernel .boolSer v := by
  simp [maybeTransform, boolSerTransform, buildPropertyTransform]

/-- The boolean serializer always yields a number, hence non-nullish. -/
theorem boolSer_nonNullish (x : Value) :
    isNullish (applyKernel .boolSer x) = false := rfl

/-- Serializing, deserializing and re-serializing a boolean wire value is
stable: `boolSer (boolDeser (boolSer x)) = boolSer x`. -/
theorem applyKernel_boolRound (x : Value) :
    applyKernel .boolSer (applyKernel .boolDeser (applyKernel .boolSer x)) =
      applyKernel .boolSer x := by
  by_cases h : truthy x = true
  · simp [applyKernel, h, jsStrictEq, truthy]
  · simp only [Bool.not_eq_true] at h
    simp [applyKernel, h, jsStrictEq, truthy]

/-- A non-nullish primitive parses to itself with no transform. -/
theorem parseValue_prim_id (opts : IPSOOptions) (k : String) (v : Value)
    (split : Bool) (hprim : primValue v = true)
    (hnn : isNullish v = false) :
    parseValue opts k v none split = v := by
  cases v with
  | vnull => simp [isNullish] at hnn
  | vundefined => simp [isNullish] at hnn
  | vbool b => simp [parseValue, typeofIsObject]
  | vnum m => simp [parseValue, typeofIsObject]
  | vstr st => simp [parseValue, typeofIsObject]
  | varr es => simp [primValue] at hprim
  | vrec es => simp [primValue] at hprim
  | vobj i => simp [primValue] at hprim

/-- A boolean wire value (always a number) parses through the default
boolean deserializer. -/
theorem parseValue_boolSer_image (opts : IPSOOptions) (k : String)
    (x : Value) (split : Bool) :
    parseValue opts k (applyKernel .boolSer x) (some boolDeserTransform)
      split = applyKernel .boolDeser (applyKernel .boolSer x) := by
  by_cases h : truthy x = true
  · simp [applyKernel, h, parseValue, typeofIsObject, boolDeserTransform,
      buildPropertyTransform]
  · simp only [Bool.not_eq_true] at h
    simp [applyKernel, h, parseValue, typeofIsObject, boolDeserTransform,
      buildPropertyTransform]

/-- `parseValueList` is an element-wise map of `parseValue`. -/
theorem parseValueList_eq_map (opts : IPSOOptions) (k : String)
    (es : List Value) (t : Option PropertyTransform) (split : Bool) :
    parseValueList opts k es t split =
      es.map (fun x => parseValue opts k x t split) := by
  induction es with
  | nil => rw [parseValueList.eq_1, List.map_nil]
  | cons x rest ih => rw [parseValueList.eq_2, ih, List.map_cons]

/-- Parsing a split array maps `parseValue` over its elements. -/
theorem parseValue_varr (opts : IPSOOptions) (k : String) (es : List Value)
    (t : Option PropertyTransform) :
    parseValue opts k (.varr es) t true =
      .varr (es.map (fun x => parseValue opts k x t true)) := by
  rw [parseValue.eq_1, parseValueList_eq_map]

/-- Core round-trip stability of one flat field value: with paired
transforms (none at all, or the default boolean pair) the parsed wire
value is flat again and re-serializes to the same wire value. -/
theorem flat_roundtrip_value (opts : IPSOOptions) (k : String) (v : Value)
    (s d : Option PropertyTransform)
    (hpair : (s = none ∧ d = none) ∨
      (s = some boolSerTransform ∧ d = some boolDeserTransform))
    (hflat : flatValue v = true)
    (hnn : isNullish (flatWire opts s v) = false) :
    flatValue (parseValue opts k (flatWire opts s v) d (splitOf d)) = true ∧
    flatWire opts s (parseValue opts k (flatWire opts s v) d (splitOf d)) =
      flatWire opts s v := by
  rcases hpair with ⟨hs, hd⟩ | ⟨hs, hd⟩ <;> subst hs <;> subst hd
  · -- no transforms in either direction
    have hsplit : splitOf (none : Option PropertyTransform) = true := rfl
    rw [hsplit]
    cases v with
    | vnull => simp [flatWire, maybeTransform_none, isNullish] at hnn
    | vundefined => simp [flatWire, maybeTransform_none, isNullish] at hnn
    | vbool b =>
        rw [show flatWire opts none (.vbool b) = .vbool b from rfl,
          parseValue_prim_id opts k (.vbool b) true rfl rfl]
        exact ⟨rfl, rfl⟩
    | vnum m =>
        rw [show flatWire opts none (.vnum m) = .vnum m from rfl,
          parseValue_prim_id opts k (.vnum m) true rfl rfl]
        exact ⟨rfl, rfl⟩
    | vstr st =>
        rw [show flatWire opts none (.vstr st) = .vstr st from rfl,
          parseValue_prim_id opts k (.vstr st) true rfl rfl]
        exact ⟨rfl, rfl⟩
    | vrec es => simp [flatValue, primValue] at hflat
    | vobj i => simp [flatValue, primValue] at hflat
    | varr xs =>
        have hmapid : xs.map (fun x => maybeTransform opts none x) = xs := by
          simp [maybeTransform_none]
        have hwire : flatWire opts none (.varr xs) =
            if (xs.filter (fun x => !(isNullish x))).length == 0 then
              .vnull
            else .varr (xs.filter (fun x => !(isNullish x))) := by
          rw [flatWire]
          rw [hmapid]
        by_cases hlen :
            ((xs.filter (fun x => !(isNullish x))).length == 0) = true
        · rw [hwire, if_pos hlen] at hnn
          simp [isNullish] at hnn
        · rw [hwire, if_neg hlen] at hnn ⊢
          have hallprim : ∀ x ∈ xs.filter (fun x => !(isNullish x)),
              primValue x = true := by
            intro x hx
            have hx2 := List.mem_filter.mp hx
            exact List.all_eq_true.mp (by simpa [flatValue] using hflat) x
              hx2.1
          have hallnn : ∀ x ∈ xs.filter (fun x => !(isNullish x)),
              isNullish x = false := by
            intro x hx
            have hx2 := List.mem_filter.mp hx
            simpa using hx2.2
          have hpid : (xs.filter (fun x => !(isNullish x))).map
              (fun x => parseValue opts k x none true) =
              xs.filter (fun x => !(isNullish x)) := by
            rw [List.map_congr_left (fun a ha =>
              parseValue_prim_id opts k a true (hallprim a ha)
                (hallnn a ha))]
            exact List.map_id _
          rw [parseValue_varr, hpid]
          constructor
          · rw [flatValue]
            exact List.all_eq_true.mpr hallprim
          · have hmapid2 : (xs.filter (fun x => !(isNullish x))).map
                (fun x => maybeTransform opts none x) =
                xs.filter (fun x => !(isNullish x)) := by
              simp [maybeTransform_none]
            have hff : (xs.filter (fun x => !(isNullish x))).filter
                (fun x => !(isNullish x)) =
                xs.filter (fun x => !(isNullish x)) := by
              rw [List.filter_eq_self]
              intro a ha
              simpa using hallnn a ha
            rw [flatWire, hmapid2, hff, if_neg hlen]
  · -- the default boolean transform pair
    have hsplit : splitOf (some boolDeserTransform) = true := rfl
    rw [hsplit]
    cases v with
    | varr xs =>
        have hmapb : xs.map (fun x =>
            maybeTransform opts (some boolSerTransform) x) =
            xs.map (fun x => applyKernel .boolSer x) := by
          simp [maybeTransform_boolSer]
        have hfb : (xs.map (fun x => applyKernel .boolSer x)).filter
            (fun x => !(isNullish x)) =
            xs.map (fun x => applyKernel .boolSer x) := by
          rw [List.filter_eq_self]
          intro a ha
          obtain ⟨x, _, rfl⟩ := List.mem_map.mp ha
          simp [boolSer_nonNullish]
        have hwire : flatWire opts (some boolSerTransform) (.varr xs) =
            if (xs.map (fun x => applyKernel .boolSer x)).length == 0 then
              .vnull
            else .varr (xs.map (fun x => applyKernel .boolSer x)) := by
          rw [flatWire, hmapb, hfb]
        by_cases hlen :
            ((xs.map (fun x => applyKernel .boolSer x)).length == 0) = true
        · rw [hwire, if_pos hlen] at hnn
          simp [isNullish] at hnn
        · rw [hwire, if_neg hlen] at hnn ⊢
          have hpb : (xs.map (fun x => applyKernel .boolSer x)).map
              (fun y => parseValue opts k y (some boolDeserTransform) true) =
              xs.map (fun x =>
                applyKernel .boolDeser (applyKernel .boolSer x)) := by
            rw [List.map_map]
            apply List.map_congr_left
            intro a _
            exact parseValue_boolSer_image opts k a true
          rw [parseValue_varr, hpb]
          constructor
          · rw [flatValue]
            apply List.all_eq_true.mpr
            intro x hx
            obtain ⟨y, _, rfl⟩ := List.mem_map.mp hx
            simp [applyKernel, primValue]
          · have hmapb2 : (xs.map (fun x =>
                applyKernel .boolDeser (applyKernel .boolSer x))).map
                (fun x => maybeTransform opts (some boolSerTransform) x) =
                xs.map (fun x => applyKernel .boolSer x) := by
              rw [List.map_map]
              apply List.map_congr_left
              intro a _
              show maybeTransform opts (some boolSerTransform)
                (applyKernel .boolDeser (applyKernel .boolSer a)) =
                applyKernel .boolSer a
              rw [maybeTransform_boolSer]
              exact applyKernel_boolRound a
            have hfb2 : (xs.map (fun x => applyKernel .boolSer x)).filter
                (fun x => !(isNullish x)) =
                xs.map (fun x => applyKernel .boolSer x) := hfb
            rw [flatWire, hmapb2, hfb2, if_neg hlen]
    | vnull =>
        rw [show flatWire opts (some boolSerTransform) .vnull =
          applyKernel .boolSer .vnull from maybeTransform_boolSer opts _,
          parseValue_boolSer_image opts k .vnull true]
        refine ⟨rfl, ?_⟩
        rw [show flatWire opts (some boolSerTransform)
            (applyKernel .boolDeser (applyKernel .boolSer .vnull)) =
            applyKernel .boolSer (applyKernel .boolDeser
              (applyKernel .boolSer .vnull)) from
            maybeTransform_boolSer opts _]
        exact applyKernel_boolRound .vnull
    | vundefined =>
        rw [show flatWire opts (some boolSerTransform) .vundefined =
          applyKernel .boolSer .vundefined from maybeTransform_boolSer opts _,
          parseValue_boolSer_image opts k .vundefined true]
        refine ⟨rfl, ?_⟩
        rw [show flatWire opts (some boolSerTransform)
            (applyKernel .boolDeser (applyKernel .boolSer .vundefined)) =
            applyKernel .boolSer (applyKernel .boolDeser
              (applyKernel .boolSer .vundefined)) from
            maybeTransform_boolSer opts _]
        exact applyKernel_boolRound .vundefined
    | vbool b =>
        rw [show flatWire opts (some boolSerTransform) (.vbool b) =
          applyKernel .boolSer (.vbool b) from maybeTransform_boolSer opts _,
          parseValue_boolSer_image opts k (.vbool b) true]
        refine ⟨rfl, ?_⟩
        rw [show flatWire opts (some boolSerTransform)
            (applyKernel .boolDeser (applyKernel .boolSer (.vbool b))) =
            applyKernel .boolSer (applyKernel .boolDeser
              (applyKernel .boolSer (.vbool b))) from
            maybeTransform_boolSer opts _]
        exact applyKernel_boolRound (.vbool b)
    | vnum m =>
        rw [show flatWire opts (some boolSerTransform) (.vnum m) =
          applyKernel .boolSer (.vnum m) from maybeTransform_boolSer opts _,
          parseValue_boolSer_image opts k (.vnum m) true]
        refine ⟨rfl, ?_⟩
        rw [show flatWire opts (some boolSerTransform)
            (applyKernel .boolDeser (applyKernel .boolSer (.vnum m))) =
            applyKernel .boolSer (applyKernel .boolDeser
              (applyKernel .boolSer (.vnum m))) from
            maybeTransform_boolSer opts _]
        exact applyKernel_boolRound (.vnum m)
    | vstr st =>
        rw [show flatWire opts (some boolSerTransform) (.vstr st) =
          applyKernel .boolSer (.vstr st) from maybeTransform_boolSer opts _,
          parseValue_boolSer_image opts k (.vstr st) true]
        refine ⟨rfl, ?_⟩
        rw [show flatWire opts (some boolSerTransform)
            (applyKernel .boolDeser (applyKernel .boolSer (.vstr st))) =
            applyKernel .boolSer (applyKernel .boolDeser
              (applyKernel .boolSer (.vstr st))) from
            maybeTransform_boolSer opts _]
        exact applyKernel_boolRound (.vstr st)
    | vrec es => simp [flatValue, primValue] at hflat
    | vobj i => simp [flatValue, primValue] at hflat

/-- Every key of the emitted record is the wire key of some emitted
field. -/
theorem flatEmit_keys_mem (cls : ClassDesc) (opts : IPSOOptions)
    (fl : List (String × Value)) (k : String)
    (h : k ∈ (flatEmit cls opts fl).map Prod.fst) :
    ∃ fv ∈ fl,
      ((!startsWithUnderscore fv.1 && isSerializable cls fv.1) &&
        !(isNullish (flatWire opts (getSerializer cls fv.1) fv.2))) = true ∧
      k = (lookupKeyOrProperty cls fv.1).getD "null" := by
  induction fl with
  | nil => simp [flatEmit] at h
  | cons fv rest ih =>
      obtain ⟨f, v⟩ := fv
      rw [flatEmit_cons] at h
      by_cases hc : ((!startsWithUnderscore f && isSerializable cls f) &&
          !(isNullish (flatWire opts (getSerializer cls f) v))) = true
      · rw [if_pos hc, List.map_cons] at h
        rcases List.mem_cons.mp h with h1 | h2
        · exact ⟨(f, v), by simp, hc, by simpa using h1⟩
        · obtain ⟨fv', hm, hc', hk⟩ := ih h2
          exact ⟨fv', by simp [hm], hc', hk⟩
      · rw [if_neg hc] at h
        obtain ⟨fv', hm, hc', hk⟩ := ih h
        exact ⟨fv', by simp [hm], hc', hk⟩

/-- With distinct field names and an involutive wire-key lookup, the keys
of the emitted record are distinct. -/
theorem flatEmit_keys_nodup (cls : ClassDesc) (opts : IPSOOptions)
    (fl : List (String × Value)) (hnod : (fl.map Prod.fst).Nodup)
    (hbij : ∀ fv ∈ fl,
      ((!startsWithUnderscore fv.1 && isSerializable cls fv.1) &&
        !(isNullish (flatWire opts (getSerializer cls fv.1) fv.2))) = true →
      ∃ kf, lookupKeyOrProperty cls fv.1 = some kf ∧
        lookupKeyOrProperty cls kf = some fv.1) :
    ((flatEmit cls opts fl).map Prod.fst).Nodup := by
  induction fl with
  | nil => simp [flatEmit]
  | cons fv rest ih =>
      obtain ⟨f, v⟩ := fv
      rw [List.map_cons, List.nodup_cons] at hnod
      obtain ⟨hfnot, hnodr⟩ := hnod
      have hbij' : ∀ fv ∈ rest,
          ((!startsWithUnderscore fv.1 && isSerializable cls fv.1) &&
            !(isNullish (flatWire opts (getSerializer cls fv.1) fv.2))) =
            true →
          ∃ kf, lookupKeyOrProperty cls fv.1 = some kf ∧
            lookupKeyOrProperty cls kf = some fv.1 :=
        fun fv hm hp => hbij fv (by simp [hm]) hp
      rw [flatEmit_cons]
      by_cases hc : ((!startsWithUnderscore f && isSerializable cls f) &&
          !(isNullish (flatWire opts (getSerializer cls f) v))) = true
      · rw [if_pos hc, List.map_cons, List.nodup_cons]
        refine ⟨?_, ih hnodr hbij'⟩
        intro hmem
        have hmem2 : (lookupKeyOrProperty cls f).getD "null" ∈
            (flatEmit cls opts rest).map Prod.fst := by simpa using hmem
        obtain ⟨fv', hm', hc', hk'⟩ :=
          flatEmit_keys_mem cls opts rest _ hmem2
        obtain ⟨kf, hlf, hlb⟩ := hbij (f, v) (by simp) hc
        obtain ⟨kf', hlf', hlb'⟩ := hbij fv' (by simp [hm']) hc'
        rw [hlf, Option.getD_some] at hk' hmem2
        rw [hlf', Option.getD_some] at hk'
        rw [hk'] at hlb
        rw [hlb'] at hlb
        have hff : f = fv'.1 := (Option.some.inj hlb).symm
        have hmm : fv'.1 ∈ rest.map Prod.fst :=
          List.mem_map_of_mem Prod.fst hm'
        exact hfnot (hff ▸ hmm)
      · rw [if_neg hc]
        exact ih hnodr hbij'

/-- The property names of the parsed fields form a sublist of the original
field names. -/
theorem flatParsed_keys_sublist (cls : ClassDesc) (opts : IPSOOptions)
    (fl : List (String × Value)) :
    ((flatParsed cls opts fl).map Prod.fst).Sublist (fl.map Prod.fst) := by
  induction fl with
  | nil => simp [flatParsed]
  | cons fv rest ih =>
      obtain ⟨f, v⟩ := fv
      rw [flatParsed_cons]
      by_cases hc : ((!startsWithUnderscore f && isSerializable cls f) &&
          !(isNullish (flatWire opts (getSerializer cls f) v))) = true
      · rw [if_pos hc, List.map_cons, List.map_cons]
        exact ih.cons₂ f
      · rw [if_neg hc, List.map_cons]
        exact ih.cons f

/-- Round-trip stability of the emitted record: serializing the parsed
fields emits exactly the original wire record. -/
theorem flatEmit_flatParsed (cls : ClassDesc) (opts : IPSOOptions)
    (fl : List (String × Value))
    (hcond : ∀ fv ∈ fl,
      ((!startsWithUnderscore fv.1 && isSerializable cls fv.1) &&
        !(isNullish (flatWire opts (getSerializer cls fv.1) fv.2))) = true →
      flatValue fv.2 = true ∧
      ((getSerializer cls fv.1 = none ∧ getDeserializer cls fv.1 = none) ∨
       (getSerializer cls fv.1 = some boolSerTransform ∧
        getDeserializer cls fv.1 = some boolDeserTransform))) :
    flatEmit cls opts (flatParsed cls opts fl) = flatEmit cls opts fl := by
  induction fl with
  | nil => simp [flatParsed, flatEmit]
  | cons fv rest ih =>
      obtain ⟨f, v⟩ := fv
      have hcond' : ∀ fv ∈ rest,
          ((!startsWithUnderscore fv.1 && isSerializable cls fv.1) &&
            !(isNullish (flatWire opts (getSerializer cls fv.1) fv.2))) =
            true →
          flatValue fv.2 = true ∧
          ((getSerializer cls fv.1 = none ∧
            getDeserializer cls fv.1 = none) ∨
           (getSerializer cls fv.1 = some boolSerTransform ∧
            getDeserializer cls fv.1 = some boolDeserTransform)) :=
        fun fv hm hp => hcond fv (by simp [hm]) hp
      rw [flatParsed_cons]
      by_cases hc : ((!startsWithUnderscore f && isSerializable cls f) &&
          !(isNullish (flatWire opts (getSerializer cls f) v))) = true
      · obtain ⟨hflat, hpair⟩ := hcond (f, v) (by simp) hc
        have hc2 := hc
        rw [Bool.and_eq_true] at hc2
        have hnn : isNullish (flatWire opts (getSerializer cls f) v) =
            false := by
          have hnnb := hc2.2
          cases hx : isNullish (flatWire opts (getSerializer cls f) v)
          · rfl
          · rw [hx] at hnnb
            exact absurd hnnb (by simp)
        obtain ⟨hflat2, hwire2⟩ := flat_roundtrip_value opts
          ((lookupKeyOrProperty cls f).getD "null") v
          (getSerializer cls f) (getDeserializer cls f) hpair hflat hnn
        rw [if_pos hc, flatEmit_cons]
        rw [if_pos (by rw [hwire2]; exact hc), ih hcond']
        rw [flatEmit_cons, if_pos hc, hwire2]
      · rw [if_neg hc, ih hcond', flatEmit_cons, if_neg hc]

/-- Membership in the parsed field list comes from an emitted original
field. -/
theorem mem_flatParsed (cls : ClassDesc) (opts : IPSOOptions)
    (fl : List (String × Value)) (fv2 : String × Value)
    (hmem : fv2 ∈ flatParsed cls opts fl) :
    ∃ fv ∈ fl,
      ((!startsWithUnderscore fv.1 && isSerializable cls fv.1) &&
        !(isNullish (flatWire opts (getSerializer cls fv.1) fv.2))) = true ∧
      fv2 = (fv.1,
        parseValue opts ((lookupKeyOrProperty cls fv.1).getD "null")
          (flatWire opts (getSerializer cls fv.1) fv.2)
          (getDeserializer cls fv.1)
          (splitOf (getDeserializer cls fv.1))) := by
  rw [flatParsed] at hmem
  obtain ⟨fv, hfv, hg⟩ := List.mem_filterMap.mp hmem
  by_cases hc : ((!startsWithUnderscore fv.1 && isSerializable cls fv.1) &&
      !(isNullish (flatWire opts (getSerializer cls fv.1) fv.2))) = true
  · rw [if_pos hc] at hg
    exact ⟨fv, hfv, hc, (Option.some.inj hg).symm⟩
  · rw [if_neg hc] at hg
    exact Option.noConfusion hg

/-- Claim C4 (amended): for an instance whose serialized fields are flat
(primitive or array-of-primitive values), have an involutive wire-key
mapping that resolves no deserializer of its own, and use either no
transforms or the paired default boolean transforms, parsing the
serialized output into a fresh instance of the same class and serializing
again reproduces the wire output exactly. -/
theorem claim_C4_amended (self : IPSOObject)
    (h : roundTripOK self = true) :
    ∃ out, serialize self .vnull = .ok out ∧
      serialize (parse (IPSOObject.mk self.cls self.options []) out)
        .vnull = .ok out := by
  obtain ⟨cls, opts, fl⟩ := self
  simp only [IPSOObject.cls, IPSOObject.options]
  rw [roundTripOK] at h
  simp only [IPSOObject.cls, IPSOObject.options, IPSOObject.fields,
    Bool.and_eq_true, List.all_eq_true, decide_eq_true_eq] at h
  obtain ⟨⟨hskip, hnodup⟩, hall⟩ := h
  have hfield : ∀ fv ∈ fl,
      (!startsWithUnderscore fv.1 && isSerializable cls fv.1) = true →
      flatValue fv.2 = true ∧
      (∃ kf, lookupKeyOrProperty cls fv.1 = some kf ∧
        lookupKeyOrProperty cls kf = some fv.1 ∧
        getDeserializer cls kf = none) ∧
      ((getSerializer cls fv.1 = none ∧ getDeserializer cls fv.1 = none) ∨
       (getSerializer cls fv.1 = some boolSerTransform ∧
        getDeserializer cls fv.1 = some boolDeserTransform)) := by
    intro fv hm hp
    have hthis := hall fv hm
    have hp2 : (!startsWithUnderscore fv.1) = true ∧
        isSerializable cls fv.1 = true := by
      rw [← Bool.and_eq_true]
      exact hp
    rw [if_pos hp2, Bool.and_eq_true] at hthis
    obtain ⟨hflat, hfrt⟩ := hthis
    unfold fieldRoundTripOK at hfrt
    cases hlk : lookupKeyOrProperty cls fv.1 with
    | none =>
        rw [hlk] at hfrt
        exact absurd hfrt (by simp)
    | some kf =>
        rw [hlk] at hfrt
        simp only [Bool.and_eq_true, Bool.or_eq_true, decide_eq_true_eq]
          at hfrt
        obtain ⟨⟨hrev, hdk⟩, hpair⟩ := hfrt
        exact ⟨hflat, ⟨kf, hlk ▸ rfl, hrev, hdk⟩, hpair⟩
  have hcondS : ∀ fv ∈ fl,
      (!startsWithUnderscore fv.1 && isSerializable cls fv.1) = true →
      flatValue fv.2 = true ∧ splitOf (getSerializer cls fv.1) = true := by
    intro fv hm hp
    obtain ⟨hflat, _, hpair⟩ := hfield fv hm hp
    refine ⟨hflat, ?_⟩
    rcases hpair with ⟨hs, _⟩ | ⟨hs, _⟩ <;> rw [hs] <;> rfl
  have hpassOf : ∀ fv : String × Value,
      ((!startsWithUnderscore fv.1 && isSerializable cls fv.1) &&
        !(isNullish (flatWire opts (getSerializer cls fv.1) fv.2))) = true →
      (!startsWithUnderscore fv.1 && isSerializable cls fv.1) = true := by
    intro fv hp
    rw [Bool.and_eq_true] at hp
    exact hp.1
  have hbij : ∀ fv ∈ fl,
      ((!startsWithUnderscore fv.1 && isSerializable cls fv.1) &&
        !(isNullish (flatWire opts (getSerializer cls fv.1) fv.2))) = true →
      ∃ kf, lookupKeyOrProperty cls fv.1 = some kf ∧
        lookupKeyOrProperty cls kf = some fv.1 := by
    intro fv hm hp
    obtain ⟨_, ⟨kf, hlk, hrev, _⟩, _⟩ := hfield fv hm (hpassOf fv hp)
    exact ⟨kf, hlk, hrev⟩
  have hkeysnd : ((flatEmit cls opts fl).map Prod.fst).Nodup :=
    flatEmit_keys_nodup cls opts fl hnodup hbij
  have hser1 : serialize (IPSOObject.mk cls opts fl) .vnull =
      .ok (flatEmit cls opts fl) := by
    rw [serialize.eq_1]
    have h1 := serializeFields_flat (.mk cls opts fl) fl [] hcondS
      (by simpa only [List.map_nil, List.nil_append, IPSOObject.cls,
        IPSOObject.options] using hkeysnd)
    simpa only [IPSOObject.cls, IPSOObject.options, List.nil_append]
      using h1
  have hres : ∀ fv ∈ fl,
      ((!startsWithUnderscore fv.1 && isSerializable cls fv.1) &&
        !(isNullish (flatWire opts (getSerializer cls fv.1) fv.2))) = true →
      getDeserializer cls ((lookupKeyOrProperty cls fv.1).getD "null") =
        none ∧
      lookupKeyOrProperty cls ((lookupKeyOrProperty cls fv.1).getD "null") =
        some fv.1 := by
    intro fv hm hp
    obtain ⟨_, ⟨kf, hlk, hrev, hdk⟩, _⟩ := hfield fv hm (hpassOf fv hp)
    rw [hlk, Option.getD_some]
    exact ⟨hdk, hrev⟩
  have hparsednd : ((flatParsed cls opts fl).map Prod.fst).Nodup :=
    List.Nodup.sublist (flatParsed_keys_sublist cls opts fl) hnodup
  have hpar : parse (IPSOObject.mk cls opts []) (flatEmit cls opts fl) =
      IPSOObject.mk cls opts (flatParsed cls opts fl) := by
    have h2 := parse_flatEmit cls opts fl [] hres
      (by simpa only [List.map_nil, List.nil_append] using hparsednd)
    simpa only [List.nil_append] using h2
  have hstab : flatEmit cls opts (flatParsed cls opts fl) =
      flatEmit cls opts fl := by
    apply flatEmit_flatParsed
    intro fv hm hp
    obtain ⟨hflat, _, hpair⟩ := hfield fv hm (hpassOf fv hp)
    exact ⟨hflat, hpair⟩
  have hcondS2 : ∀ fv2 ∈ flatParsed cls opts fl,
      (!startsWithUnderscore fv2.1 && isSerializable cls fv2.1) = true →
      flatValue fv2.2 = true ∧ splitOf (getSerializer cls fv2.1) = true := by
    intro fv2 hm2 _
    obtain ⟨fv, hm, hc, hfveq⟩ := mem_flatParsed cls opts fl fv2 hm2
    obtain ⟨hflat, _, hpair⟩ := hfield fv hm (hpassOf fv hc)
    have hnn : isNullish (flatWire opts (getSerializer cls fv.1) fv.2) =
        false := by
      have hc2 := hc
      rw [Bool.and_eq_true] at hc2
      have hnnb := hc2.2
      cases hx : isNullish (flatWire opts (getSerializer cls fv.1) fv.2)
      · rfl
      · rw [hx] at hnnb
        exact absurd hnnb (by simp)
    obtain ⟨hflat2, _⟩ := flat_roundtrip_value opts
      ((lookupKeyOrProperty cls fv.1).getD "null") fv.2
      (getSerializer cls fv.1) (getDeserializer cls fv.1) hpair hflat hnn
    subst hfveq
    constructor
    · exact hflat2
    · rcases hpair with ⟨hs, _⟩ | ⟨hs, _⟩ <;> rw [hs] <;> rfl
  have hser2 : serialize (IPSOObject.mk cls opts (flatParsed cls opts fl))
      .vnull = .ok (flatEmit cls opts fl) := by
    rw [serialize.eq_1]
    have h3 := serializeFields_flat (.mk cls opts (flatParsed cls opts fl))
      (flatParsed cls opts fl) [] hcondS2
      (by
        simp only [List.map_nil, List.nil_append, IPSOObject.cls,
          IPSOObject.options]
        rw [hstab]
        exact hkeysnd)
    simp only [IPSOObject.cls, IPSOObject.options, List.nil_append,
      hstab] at h3
    exact h3
  exact ⟨flatEmit cls opts fl, hser1, by rw [hpar]; exact hser2⟩

/-- Witness for the amended claim C4 at a concrete flat instance with a
number field, a boolean-typed field and an array field. -/
theorem claim_C4_witness :
    ∃ out, serialize exInstFlat .vnull = .ok out ∧
      serialize (parse (IPSOObject.mk exInstFlat.cls exInstFlat.options [])
        out) .vnull = .ok out :=
  claim_C4_amended exInstFlat (by decide)

end IPSO
